import Mathlib

/-
Verification development for the streaming query engine in src/xml_lib.
Each section embeds one slice of the C++ source as executable Lean
definitions and proves or refutes the frozen claims about it.
Source references use file names and line numbers of the repository.
-/

set_option maxHeartbeats 1000000

namespace StreamingXml

/-! ## Value model (src/xml_lib/xmlbase.h)

The C++ `XmlType` enum is declared in ladder order
String = 0 < Real < Integer < DateTime < Boolean < Unknown
(xmlbase.h:48-57); comparisons between enum values compare these codes. -/

inductive XmlType where
  | tString
  | tReal
  | tInteger
  | tDateTime
  | tBoolean
  | tUnknown
deriving DecidableEq, Repr

/-- Numeric code of an `XmlType`, the value of the C++ enum constant. -/
def XmlType.code : XmlType → Nat
  | .tString => 0
  | .tReal => 1
  | .tInteger => 2
  | .tDateTime => 3
  | .tBoolean => 4
  | .tUnknown => 5

/-- Model of a C `double` restricted to the values this program produces:
either a finite value (represented exactly as a rational) or NaN
(produced by `XmlUtils::nan()` and by real division by zero).
Infinities are not produced by the modeled operations and are omitted. -/
inductive RD where
  | fin (q : ℚ)
  | nan
deriving DecidableEq, Repr

/-- IEEE `<` on doubles: any comparison involving NaN is false. -/
def RD.lt : RD → RD → Bool
  | .fin a, .fin b => a < b
  | _, _ => false

/-- IEEE `==` on doubles: any comparison involving NaN is false. -/
def RD.eqb : RD → RD → Bool
  | .fin a, .fin b => a == b
  | _, _ => false

/-- Model of `XmlDateTime` (xmlbase.h:62-72): a packed bit-field record.
Field widths: error 1, dateonly 1, year 14, month 4, day 5, hours 5,
minutes 6, seconds 6, ms 14 bits.  The numeric fields are modeled as `Nat`
and every store into the record reduces modulo the field width, exactly as
a C++ unsigned bit-field assignment does. -/
structure XmlDateTime where
  error : Bool
  dateonly : Bool
  year : Nat
  month : Nat
  day : Nat
  hours : Nat
  minutes : Nat
  seconds : Nat
  ms : Nat
deriving DecidableEq, Repr

/-- The all-zero `XmlDateTime`, the C++ aggregate initializer value. -/
def XmlDateTime.zero : XmlDateTime :=
  ⟨false, false, 0, 0, 0, 0, 0, 0, 0⟩

/-- Model of `XmlDateTime::operator==` (xmlbase.h:74-107).  Note that a
datetime with the error flag set compares unequal to everything,
including itself. -/
def XmlDateTime.eqb (a b : XmlDateTime) : Bool :=
  if a.error ∨ b.error then false
  else if a.dateonly ≠ b.dateonly then false
  else if a.year ≠ b.year then false
  else if a.month ≠ b.month then false
  else if a.day ≠ b.day then false
  else if a.dateonly then true
  else if a.hours ≠ b.hours then false
  else if a.minutes ≠ b.minutes then false
  else if a.seconds ≠ b.seconds then false
  else if a.ms ≠ b.ms then false
  else true

/-- Model of `XmlDateTime::operator<` (xmlbase.h:114-171).  A datetime
with the error flag set is less than nothing and nothing is less than
it. -/
def XmlDateTime.ltb (a b : XmlDateTime) : Bool :=
  if a.error ∨ b.error then false
  else if a.year < b.year then true
  else if a.year > b.year then false
  else if a.month < b.month then true
  else if a.month > b.month then false
  else if a.day < b.day then true
  else if a.day > b.day then false
  else if a.dateonly ∧ ¬b.dateonly then true
  else if ¬a.dateonly ∧ b.dateonly then false
  else if a.dateonly ∧ b.dateonly then false
  else if a.hours < b.hours then true
  else if a.hours > b.hours then false
  else if a.minutes < b.minutes then true
  else if a.minutes > b.minutes then false
  else if a.seconds < b.seconds then true
  else if a.seconds > b.seconds then false
  else if a.ms < b.ms then true
  else if a.ms > b.ms then false
  else false

/-- Comparison rank of the dateonly flag, used only in proofs: both
`eqb` and `ltb` treat a date-only value as below a timed value on the
same civil date and ignore its stored time fields. -/
def XmlDateTime.rank (d : XmlDateTime) : Nat := if d.dateonly then 0 else 1

/-- Effective hours under comparison: ignored (0) for date-only values. -/
def XmlDateTime.hEff (d : XmlDateTime) : Nat := if d.dateonly then 0 else d.hours

/-- Effective minutes under comparison. -/
def XmlDateTime.miEff (d : XmlDateTime) : Nat := if d.dateonly then 0 else d.minutes

/-- Effective seconds under comparison. -/
def XmlDateTime.sEff (d : XmlDateTime) : Nat := if d.dateonly then 0 else d.seconds

/-- Effective sub-second field under comparison. -/
def XmlDateTime.msEff (d : XmlDateTime) : Nat := if d.dateonly then 0 else d.ms

/-- The lexicographic order that `ltb` implements on error-free values
(proved in `dt_ltb_iff_lex`). -/
def dtLexLt (a b : XmlDateTime) : Prop :=
  a.year < b.year ∨ (a.year = b.year ∧ (a.month < b.month ∨ (a.month = b.month ∧
    (a.day < b.day ∨ (a.day = b.day ∧ (a.rank < b.rank ∨ (a.rank = b.rank ∧
    (a.hEff < b.hEff ∨ (a.hEff = b.hEff ∧ (a.miEff < b.miEff ∨ (a.miEff = b.miEff ∧
    (a.sEff < b.sEff ∨ (a.sEff = b.sEff ∧ a.msEff < b.msEff)))))))))))))

/-- The field agreement that `eqb` tests on error-free values (proved in
`dt_eqb_iff_fields`). -/
def dtFieldsEq (a b : XmlDateTime) : Prop :=
  a.rank = b.rank ∧ a.year = b.year ∧ a.month = b.month ∧ a.day = b.day ∧
    a.hEff = b.hEff ∧ a.miEff = b.miEff ∧ a.sEff = b.sEff ∧ a.msEff = b.msEff

/-! ## C strings -/

/-- Byte strings are modeled as lists of characters.  The program reads
and writes them as ASCII byte sequences. -/
abbrev CStr := List Char

/-- Truncation performed whenever a `std::string` travels through
`c_str()` into a C string API: everything from the first NUL byte on is
lost. -/
def cstrT (s : CStr) : CStr :=
  s.takeWhile (fun c => c ≠ Char.ofNat 0)

/-- Sign of `strcmp` on byte strings, comparing unsigned byte values and
stopping at the first NUL (both strings here are already NUL-truncated by
`cstrT` at the call sites).  The C library fixes only the sign of the
result; this function computes that sign, and serves as the `strcmp`
model wherever the program observes only the sign.  Statements about the
raw return value of `Compare` use `xmlCompareG` below, which is
parameterized over the `strcmp` implementation. -/
def lexSign : CStr → CStr → Int
  | [], [] => 0
  | [], _ :: _ => -1
  | _ :: _, [] => 1
  | a :: as, b :: bs =>
    if a.toNat < b.toNat then -1
    else if b.toNat < a.toNat then 1
    else lexSign as bs

/-- Model of `strcmp(v1.sval.c_str(), v2.sval.c_str())` as observed by
the sign-only call sites of `XmlValue::Compare` (orderings and equality
tests): compare the NUL-truncated byte strings and return the sign of
the result (xmlbase.h:554). -/
def strcmpSign (a b : CStr) : Int :=
  lexSign (cstrT a) (cstrT b)

/-! ## XmlValue and Compare -/

/-- Model of `XmlValue` (xmlbase.h:491-760): a tagged scalar.  The C++
struct stores the non-string payloads in a union next to an always-present
`sval`; the model keeps only the payload selected by the type tag, which
is the only one the program reads for a well-typed value. -/
inductive XmlValue where
  | vStr (s : CStr)
  | vReal (r : RD)
  | vInt (i : Int)
  | vBool (b : Bool)
  | vDT (d : XmlDateTime)
  | vUnknown
deriving DecidableEq, Repr

/-- The type tag of a value (the `type` member of `XmlValue`). -/
def XmlValue.xtype : XmlValue → XmlType
  | .vStr _ => .tString
  | .vReal _ => .tReal
  | .vInt _ => .tInteger
  | .vBool _ => .tBoolean
  | .vDT _ => .tDateTime
  | .vUnknown => .tUnknown

/-- Model of `XmlValue::Compare` (xmlbase.h:538-558), with the String
arm clamped to the sign of `strcmp` — the aspect every other call site
observes; `xmlCompareG` below keeps the raw, implementation-defined
`strcmp` value.  Values of distinct types are ordered by enum code (the
middle `== ? 0` arm of the C++ conditional is kept although it is
unreachable inside the `!=` guard); values of equal type are ordered by
payload; the `default` arm (type Unknown) returns 0. -/
def xmlCompare (v1 v2 : XmlValue) : Int :=
  if v1.xtype ≠ v2.xtype then
    if v1.xtype.code < v2.xtype.code then -1
    else if v1.xtype.code = v2.xtype.code then 0
    else 1
  else
    match v1, v2 with
    | .vReal a, .vReal b => if RD.lt a b then -1 else if RD.eqb a b then 0 else 1
    | .vInt a, .vInt b => if a < b then -1 else if a = b then 0 else 1
    | .vBool a, .vBool b => if (!a) ∧ b then -1 else if a = b then 0 else 1
    | .vDT a, .vDT b => if XmlDateTime.ltb a b then -1 else if XmlDateTime.eqb a b then 0 else 1
    | .vStr a, .vStr b => strcmpSign a b
    | _, _ => 0

/-- Well-formedness of a value: its real payload is not NaN and its
datetime payload is error-free. -/
def XmlValue.wf : XmlValue → Prop
  | .vReal .nan => False
  | .vDT d => d.error = false
  | _ => True

instance (v : XmlValue) : Decidable v.wf := by
  unfold XmlValue.wf; cases v with
  | vReal r => cases r <;> infer_instance
  | vDT d => infer_instance
  | _ => infer_instance

/-- The exact value the glibc `strcmp` returns: the difference of the
first differing bytes, as unsigned chars.  The C standard specifies only
the sign of `strcmp`; this is the concrete behavior of the library the
program links against on Linux. -/
def strcmpGlibc : CStr → CStr → Int
  | [], [] => 0
  | [], b :: _ => -(b.toNat : Int)
  | a :: _, [] => (a.toNat : Int)
  | a :: as, b :: bs =>
    if a.toNat = b.toNat then strcmpGlibc as bs
    else (a.toNat : Int) - (b.toNat : Int)

/-- The C contract of a `strcmp` implementation, stated on the
NUL-truncated strings `Compare` passes it: only the sign of the result
is specified, as the byte-lexicographic order. -/
def strcmpOK (f : CStr → CStr → Int) : Prop :=
  ∀ a b : CStr, (f (cstrT a) (cstrT b)).sign = lexSign (cstrT a) (cstrT b)

/-- Model of `XmlValue::Compare` (xmlbase.h:538-558) parameterized by
the `strcmp` implementation: the String arm returns the raw library
value, of which only the sign is contractual; every other arm is an
exact −1/0/1 conditional.  `xmlCompare` above is the instance in which
`strcmp` is replaced by its sign, which is all that the other call sites
of `Compare` in this development observe. -/
def xmlCompareG (scmp : CStr → CStr → Int) (v1 v2 : XmlValue) : Int :=
  if v1.xtype ≠ v2.xtype then
    if v1.xtype.code < v2.xtype.code then -1
    else if v1.xtype.code = v2.xtype.code then 0
    else 1
  else
    match v1, v2 with
    | .vReal a, .vReal b => if RD.lt a b then -1 else if RD.eqb a b then 0 else 1
    | .vInt a, .vInt b => if a < b then -1 else if a = b then 0 else 1
    | .vBool a, .vBool b => if (!a) ∧ b then -1 else if a = b then 0 else 1
    | .vDT a, .vDT b => if XmlDateTime.ltb a b then -1 else if XmlDateTime.eqb a b then 0 else 1
    | .vStr a, .vStr b => scmp (cstrT a) (cstrT b)
    | _, _ => 0

/-! ## Numeric and string parsing (src/xml_lib/xmlutils.h) -/

/-- The characters `isspace` accepts in the C locale. -/
def isSpaceC (c : Char) : Bool :=
  c = ' ' ∨ c = '\t' ∨ c = '\n' ∨ c = Char.ofNat 11 ∨ c = Char.ofNat 12 ∨ c = '\r'

/-- Accumulate decimal digits, stopping at the first non-digit. -/
def digitsAcc (acc : Int) : CStr → Int
  | [] => acc
  | c :: cs => if c.isDigit then digitsAcc (acc * 10 + ((c.toNat : Int) - 48)) cs else acc

/-- Model of C `atoi`/`strtoll(s, _, 10)`: skip whitespace, read an
optional sign and then decimal digits, returning 0 when no digit is
present.  Overflow is undefined behavior in C and is not modeled; no
theorem evaluates it on overflowing input. -/
def atoiM (s : CStr) : Int :=
  match (cstrT s).dropWhile isSpaceC with
  | '-' :: rest => - digitsAcc 0 rest
  | '+' :: rest => digitsAcc 0 rest
  | rest => digitsAcc 0 rest

/-- Natural value of a digit string (helper for the `strtod` model). -/
def natOfDigits (ds : CStr) : Nat :=
  ds.foldl (fun acc c => acc * 10 + (c.toNat - 48)) 0

/-- Model of `strtod` as used by `XmlUtils::ParseReal` (xmlutils.h:466):
optional whitespace and sign, decimal digits with an optional fraction
and an optional decimal exponent.  The C function additionally accepts
hex, infinity and NaN spellings; those inputs are not exercised by any
theorem in this file, which never depends on the numeric value this
function returns. -/
def parseRealM (s : CStr) : RD :=
  let s1 := (cstrT s).dropWhile isSpaceC
  let signNeg : Bool := match s1 with | '-' :: _ => true | _ => false
  let s2 := match s1 with | '-' :: r => r | '+' :: r => r | r => r
  let ds := s2.takeWhile Char.isDigit
  let r1 := s2.drop ds.length
  let fs := match r1 with | '.' :: r => r.takeWhile Char.isDigit | _ => []
  let r2 := match r1 with | '.' :: r => r.drop fs.length | _ => r1
  if ds.isEmpty ∧ fs.isEmpty then RD.fin 0
  else
    let e : Int := match r2 with
      | 'e' :: '-' :: es => - digitsAcc 0 (es.takeWhile Char.isDigit)
      | 'E' :: '-' :: es => - digitsAcc 0 (es.takeWhile Char.isDigit)
      | 'e' :: '+' :: es => digitsAcc 0 (es.takeWhile Char.isDigit)
      | 'E' :: '+' :: es => digitsAcc 0 (es.takeWhile Char.isDigit)
      | 'e' :: es => digitsAcc 0 (es.takeWhile Char.isDigit)
      | 'E' :: es => digitsAcc 0 (es.takeWhile Char.isDigit)
      | _ => 0
    let mag : ℚ := ((natOfDigits ds : ℚ) + (natOfDigits fs : ℚ) / ((10 : ℚ) ^ fs.length)) * (10 : ℚ) ^ e
    RD.fin (if signNeg then -mag else mag)

/-- One token of `XmlUtils::Split` (xmlutils.h:114-158): consume
characters while inside quotes, escaping, or not at a delimiter,
maintaining the escape and quote state exactly as the C++ loop does.
Returns the token and the unconsumed remainder. -/
def splitTok (delims quoters : CStr) : CStr → Bool → Bool → CStr × CStr
  | [], _, _ => ([], [])
  | c :: cs, inQ, esc =>
    if inQ ∨ esc ∨ ¬ delims.contains c then
      let escN := if esc then false else decide (c = '\\')
      let inQN := if esc then inQ else if c = '\\' then inQ else if quoters.contains c then !inQ else inQ
      let (tok, rest) := splitTok delims quoters cs inQN escN
      (c :: tok, rest)
    else ([], c :: cs)

/-- Tokenizing loop of `XmlUtils::Split`, with fuel bounded by the input
length (each round consumes at least one character, so the fuel never
runs out on the inputs we evaluate). -/
def splitCore (delims quoters : CStr) : Nat → CStr → List CStr
  | 0, _ => []
  | fuel + 1, s =>
    let s1 := s.dropWhile (fun c => delims.contains c)
    match s1 with
    | [] => []
    | s2 =>
      let (tok, rest) := splitTok delims quoters s2 false false
      tok :: splitCore delims quoters fuel rest

/-- Model of `XmlUtils::Split(input, delimiters, quoters)` with
`insertGaps = false` (the form every call site in scope uses).  The C++
function iterates over `input.c_str()`, so the input is NUL-truncated
first. -/
def splitM (s : CStr) (delims : CStr) (quoters : CStr) : List CStr :=
  splitCore delims quoters (s.length + 1) (cstrT s)

/-- Default quoters argument of `XmlUtils::Split`. -/
def quotDq : CStr := ['"']

/-! ## XmlDateTime conversions (src/xml_lib/xmlbase.h)

`ToStdTime`/`FromStdTime` go through `mktime`/`localtime`, whose result
depends on the process time zone.  The model fixes the time zone to UTC
and uses the standard civil-calendar conversion; no theorem in this file
depends on the numeric value of these conversions. -/

/-- Truncation of a rational toward zero, the C cast `(long long)d`. -/
def ratTrunc (q : ℚ) : Int :=
  if 0 ≤ q then q.floor else q.ceil

/-- C cast of a double to a 64-bit integer.  NaN input is undefined
behavior in C; on the x86-64 targets this program runs on the cast
instruction yields the minimum 64-bit integer. -/
def rdToInt : RD → Int
  | .fin q => ratTrunc q
  | .nan => -(2 ^ 63)

/-- Days since 1970-01-01 of a civil date (UTC model of `mktime`). -/
def daysFromCivil (y m d : Int) : Int :=
  let y1 := y - (if m ≤ 2 then 1 else 0)
  let era := Int.tdiv (if 0 ≤ y1 then y1 else y1 - 399) 400
  let yoe := y1 - era * 400
  let doy := Int.tdiv (153 * (m + (if m > 2 then -3 else 9)) + 2) 5 + d - 1
  let doe := yoe * 365 + Int.tdiv yoe 4 - Int.tdiv yoe 100 + doy
  era * 146097 + doe - 719468

/-- Model of `XmlDateTime::ToStdTime` (xmlbase.h:188-199) with the time
zone fixed to UTC. -/
def dtToEpoch (dt : XmlDateTime) : Int :=
  daysFromCivil dt.year dt.month dt.day * 86400 +
    dt.hours * 3600 + dt.minutes * 60 + dt.seconds

/-- Model of `XmlDateTime::FromStdTime` via `localtime` fixed to UTC
(xmlbase.h:201-212); every field store truncates to its bit width. -/
def epochToDT (t : Int) : XmlDateTime :=
  let days := Int.fdiv t 86400
  let secs := (Int.emod t 86400).toNat
  let z := days + 719468
  let era := Int.tdiv (if 0 ≤ z then z else z - 146096) 146097
  let doe := z - era * 146097
  let yoe := Int.tdiv (doe - Int.tdiv doe 1460 + Int.tdiv doe 36524 - Int.tdiv doe 146096) 365
  let y := yoe + era * 400
  let doy := doe - (365 * yoe + Int.tdiv yoe 4 - Int.tdiv yoe 100)
  let mp := Int.tdiv (5 * doy + 2) 153
  let d := doy - Int.tdiv (153 * mp + 2) 5 + 1
  let m := mp + (if mp < 10 then 3 else -9)
  let yFinal := y + (if m ≤ 2 then 1 else 0)
  { error := false, dateonly := false,
    year := (Int.emod yFinal 16384).toNat, month := (Int.emod m 16).toNat,
    day := (Int.emod d 32).toNat,
    hours := (secs / 3600) % 32, minutes := (secs / 60 % 60) % 64,
    seconds := (secs % 60) % 64, ms := 0 }

/-- Model of `XmlDateTime::ToReal` (xmlbase.h:366-371): seconds since
epoch plus a 1/10000-unit fraction. -/
def dtToRealQ (dt : XmlDateTime) : ℚ :=
  (dtToEpoch dt : ℚ) + (dt.ms : ℚ) / 10000

/-- Model of `XmlDateTime::FromReal` (xmlbase.h:352-358): truncate to an
integer, convert, then store the scaled fraction into the 14-bit `ms`
field (a negative fraction wraps as a two's-complement bit-field store
does). -/
def dtFromReal : RD → XmlDateTime
  | .fin q =>
    let i := ratTrunc q
    let dt := epochToDT i
    { dt with ms := (Int.emod (ratTrunc ((q - i) * 10000)) 16384).toNat }
  | .nan =>
    let dt := epochToDT (-(2 ^ 63))
    { dt with ms := 0 }

/-! ## FromString (xmlbase.h:219-350) -/

/-- The error result: `dt = {0}` with the error bit set. -/
def dtError : XmlDateTime := { XmlDateTime.zero with error := true }

/-- The `while (ms >= 10000) { ms -= 10000; sec++; }` carry loop. -/
def carrySecMs (ms sec : Nat) : Nat × Nat :=
  if ms ≥ 10000 then carrySecMs (ms - 10000) (sec + 1) else (ms, sec)
termination_by ms
decreasing_by omega

/-- The `while (sec >= 60) { sec -= 60; min++; }` carry loop. -/
def carryMinSec (sec min : Nat) : Nat × Nat :=
  if sec ≥ 60 then carryMinSec (sec - 60) (min + 1) else (sec, min)
termination_by sec
decreasing_by omega

/-- The `while (min >= 60) { min -= 60; hr++; }` carry loop. -/
def carryHrMin (min hr : Nat) : Nat × Nat :=
  if min ≥ 60 then carryHrMin (min - 60) (hr + 1) else (min, hr)
termination_by min
decreasing_by omega

/-- The `while (hr >= 24)` carry loop, which fails (returns `none`,
the C++ `return dt` error exit) when the day counter is already past
31 before an increment. -/
def carryDayHr (hr day : Nat) : Option (Nat × Nat) :=
  if hr ≥ 24 then
    if day > 31 then none else carryDayHr (hr - 24) (day + 1)
  else some (hr, day)
termination_by hr
decreasing_by omega

/-- Substring containment, the model of `std::string::find(sub) != npos`. -/
def hasInfix (sub s : CStr) : Bool :=
  (List.range (s.length + 1)).any (fun i => (s.drop i).take sub.length == sub)

/-- Final field assembly of `FromString` (xmlbase.h:336-348): the
date fields are always stored, the time fields only when a time part was
present; each store truncates to the bit-field width. -/
def mkDT (dateonly : Bool) (y mo d h mi s ms : Nat) : XmlDateTime :=
  { error := false, dateonly := dateonly,
    year := y % 16384, month := mo % 16, day := d % 32,
    hours := if dateonly then 0 else h % 32,
    minutes := if dateonly then 0 else mi % 64,
    seconds := if dateonly then 0 else s % 64,
    ms := if dateonly then 0 else ms % 16384 }

/-- Model of `XmlDateTime::FromString` (xmlbase.h:219-350).  The
second argument is the separate time string (empty when unused).
Indexing past the end of a token vector (undefined behavior in the C++
when a time token is all dots) is modeled by a default empty token. -/
def fromStringM (d_or_dt : CStr) (t : CStr) : XmlDateTime :=
  let parts0 := splitM d_or_dt [' '] quotDq
  let parts := if parts0.length = 1 ∧ t ≠ [] then parts0 ++ [t] else parts0
  if parts.length = 0 ∨ parts.length > 2 then dtError
  else
    let p0 := parts.getD 0 []
    let datePart := if parts.length = 1 then (if '-' ∈ p0 then p0 else []) else p0
    let timePart := if parts.length = 1 then (if '-' ∈ p0 then [] else p0) else parts.getD 1 []
    let dparts := splitM datePart ['-'] quotDq
    if dparts.length < 3 then dtError
    else
      let year0 := (atoiM (dparts.getD 0 [])).natAbs
      let month := (atoiM (dparts.getD 1 [])).natAbs
      let day := (atoiM (dparts.getD 2 [])).natAbs
      let yearW : Option Nat :=
        if year0 ≤ 49 then some (year0 + 2000)
        else if year0 ≤ 99 then some (year0 + 1900)
        else if year0 > 2049 then none
        else some year0
      match yearW with
      | none => dtError
      | some year =>
        if month = 0 ∨ month > 12 then dtError
        else if day = 0 ∨ day > 31 then dtError
        else if timePart = [] then mkDT true year month day 0 0 0 0
        else
          let tparts := splitM timePart [':'] quotDq
          if tparts.length < 3 then dtError
          else
            let hr0 := (atoiM (tparts.getD 0 [])).natAbs
            let min0 := (atoiM (tparts.getD 1 [])).natAbs
            let secTok := tparts.getD 2 []
            let (sec0, msPart) :=
              if tparts.length ≥ 4 then ((atoiM secTok).natAbs, tparts.getD 3 [])
              else
                let s_ms := splitM secTok ['.'] quotDq
                ((atoiM (s_ms.getD 0 [])).natAbs,
                 if s_ms.length ≥ 2 then s_ms.getD 1 [] else [])
            let ms0 : Nat :=
              if msPart = [] then 0
              else
                let padded := msPart ++ ['0', '0', '0', '0']
                (if (padded.getD 4 '0').toNat > 53 then 1 else 0) +
                  (atoiM (padded.take 4)).natAbs
            let (ms1, sec1) := carrySecMs ms0 sec0
            let (sec2, min1) := carryMinSec sec1 min0
            let (min2, hr1) := carryHrMin min1 hr0
            match carryDayHr hr1 day with
            | none => dtError
            | some (hr2, day2) =>
              let hr3 :=
                if (hasInfix ['p', 'm'] secTok ∨ hasInfix ['P', 'M'] secTok) ∧ hr2 < 12
                then hr2 + 12 else hr2
              mkDT false year month day2 hr3 min2 sec2 ms1

/-! ## Value rendering (XmlValue::ToString / XmlUtils::ToString)

Only the determinism of these renderings matters to the theorems below;
none of them depends on the digits produced for a real number. -/

/-- Decimal rendering of an integer, the effect of `ss << int64`. -/
def intToStr (i : Int) : CStr := (toString i).toList

/-- Rendering of a bool under `boolalpha`, the stream default set by
`XmlUtils::ToString`. -/
def boolToStr (b : Bool) : CStr := (toString b).toList

/-- Deterministic stand-in for the stream rendering of a double
(`ss << double`, six significant digits).  No theorem depends on the
digits this produces, only on the fact that it is a function of the
value. -/
def realToStr : RD → CStr
  | .fin q => (toString q).toList
  | .nan => ['n', 'a', 'n']

/-- Zero-padded decimal of width `w` (the effect of `setw(w)` with
`setfill('0')`; wider numbers are not truncated). -/
def padNat (w n : Nat) : CStr :=
  let ds := (toString n).toList
  List.replicate (w - ds.length) '0' ++ ds

/-- Strip trailing decimal zeros from a positive ms value
(xmlbase.h:388-391). -/
def stripZeros (p : Nat) : Nat :=
  if p > 0 ∧ p % 10 = 0 then stripZeros (p / 10) else p
termination_by p
decreasing_by
  rename_i h
  omega

/-- Model of `XmlDateTime::ToString` (xmlbase.h:379-410). -/
def dtToStr (subsecond : Bool) (d : XmlDateTime) : CStr :=
  if d.error then []
  else
    padNat 4 d.year ++ ['-'] ++ padNat 2 d.month ++ ['-'] ++ padNat 2 d.day ++
      (if d.dateonly then []
       else
         [' '] ++ padNat 2 d.hours ++ [':'] ++ padNat 2 d.minutes ++ [':'] ++ padNat 2 d.seconds ++
           (if d.ms > 0 ∧ subsecond then
             let p := stripZeros d.ms
             (if d.ms < 10 then ['.', '0', '0', '0']
              else if d.ms < 100 then ['.', '0', '0']
              else if d.ms < 1000 then ['.', '0']
              else ['.']) ++ (toString p).toList
            else []))

/-! ## Convert (xmlbase.h:665-759) -/

/-- The string literal `"false"`. -/
def strFalse : CStr := ['f', 'a', 'l', 's', 'e']

/-- Model of `XmlValue::Convert`.  Every branch follows the C++ switch;
the `String` and `Unknown` target types share one branch producing a
String-typed value, and the outer `default` is unreachable because the
switch covers all six enum values. -/
def convertV (fromValue : XmlValue) (toType : XmlType) : XmlValue :=
  match toType with
  | .tReal =>
    match fromValue with
    | .vReal r => .vReal r
    | .vInt i => .vReal (.fin (i : ℚ))
    | .vBool b => .vReal (.fin (if b then 1 else 0))
    | .vStr s => .vReal (parseRealM s)
    | .vDT d => .vReal (.fin (dtToRealQ d))
    | .vUnknown => .vReal (.fin 0)
  | .tInteger =>
    match fromValue with
    | .vReal r => .vInt (rdToInt r)
    | .vInt i => .vInt i
    | .vBool b => .vInt (if b then 1 else 0)
    | .vStr s => .vInt (atoiM s)
    | .vDT d => .vInt (dtToEpoch d)
    | .vUnknown => .vInt 0
  | .tBoolean =>
    match fromValue with
    | .vReal r => .vBool (!(RD.eqb r (.fin 0)))
    | .vInt i => .vBool (i ≠ 0)
    | .vBool b => .vBool b
    | .vStr s => .vBool (s ≠ [] ∧ s ≠ strFalse ∧ s.headD ' ' ≠ '0')
    | .vDT _ => .vBool false
    | .vUnknown => .vBool false
  | .tString | .tUnknown =>
    match fromValue with
    | .vReal r => .vStr (realToStr r)
    | .vInt i => .vStr (intToStr i)
    | .vBool b => .vStr (boolToStr b)
    | .vStr s => .vStr s
    | .vDT d => .vStr (dtToStr true d)
    | .vUnknown => .vStr []
  | .tDateTime =>
    match fromValue with
    | .vReal r => .vDT (dtFromReal r)
    | .vInt i => .vDT (epochToDT i)
    | .vStr s => .vDT (fromStringM s [])
    | .vDT d => .vDT d
    | .vBool _ => .vDT XmlDateTime.zero
    | .vUnknown => .vDT XmlDateTime.zero

/-! ## Aggregators (src/xml_lib/xmlaggr.h)

`BasicAggrHelper` works on `double`; finite doubles are modeled as exact
rationals.  The claims settled here only read `m_min`/`m_max`, which are
computed by exact comparisons, so rounding of `m_sum`/`m_sum_sq` is
immaterial (the sums are modeled exactly). -/

/-- `DBL_MAX` = (2^53 − 1)·2^971, the initial value of `m_min`. -/
def dblMax : ℚ := (2 ^ 53 - 1) * 2 ^ 971

/-- `DBL_MIN` = 2^(−1022), the smallest positive normalized double, the
initial value of `m_max` (xmlaggr.h:134). -/
def dblMin : ℚ := 1 / 2 ^ 1022

/-- Model of `XmlAggregate::BasicAggrHelper` (xmlaggr.h:127-157). -/
structure BasicAggr where
  count : Int
  min : ℚ
  max : ℚ
  sum : ℚ
  sum_sq : ℚ
deriving Repr

/-- The constructor (xmlaggr.h:130-137). -/
def BasicAggr.init : BasicAggr :=
  { count := 0, min := dblMax, max := dblMin, sum := 0, sum_sq := 0 }

/-- `BasicAggrHelper::Update` (xmlaggr.h:139-150). -/
def BasicAggr.update (a : BasicAggr) (x : ℚ) : BasicAggr :=
  { count := a.count + 1,
    min := if x < a.min then x else a.min,
    max := if x > a.max then x else a.max,
    sum := a.sum + x,
    sum_sq := a.sum_sq + x * x }

/-- The slice of `XmlAggregate` the claims below concern: the primary
one-stream accumulator `m_v1` fed by `XmlAggregate::Update(double)`
(xmlaggr.h:62-65).  The second accumulator, covariance helper and `m_any`
are independent state not read by `GetAggregate(Min)`/`(Max)`. -/
structure XmlAggregate where
  v1 : BasicAggr
deriving Repr

/-- `XmlAggregate::Update(double)` (xmlaggr.h:62-65). -/
def XmlAggregate.update (a : XmlAggregate) (x : ℚ) : XmlAggregate :=
  { v1 := a.v1.update x }

/-- Ingest a whole sequence of values. -/
def XmlAggregate.updateAll (a : XmlAggregate) (xs : List ℚ) : XmlAggregate :=
  xs.foldl XmlAggregate.update a

/-- The `case Min: return m_v1.m_min` arm of `XmlAggregate::GetAggregate`
(xmlaggr.h:84-86); the implicit `XmlValue(double)` construction yields a
Real-typed value. -/
def XmlAggregate.getAggregateMin (a : XmlAggregate) : XmlValue :=
  .vReal (.fin a.v1.min)

/-- The `case Max: return m_v1.m_max` arm of `XmlAggregate::GetAggregate`
(xmlaggr.h:88-90). -/
def XmlAggregate.getAggregateMax (a : XmlAggregate) : XmlValue :=
  .vReal (.fin a.v1.max)

/-! ## Division evaluation (src/xml_lib/xmlexpr.h:1015-1030)

Type inference for `OpDiv` (xmlexpr.h:504-513) gives both operands type
Integer when both start as Integer, and type Real otherwise, and sets the
node type identically; `SetValue` of a same-typed value is the identity,
so the value computed below is exactly the stored result.  The union
accessors return the payload of the matching variant; on a differently
typed value the C++ would read reinterpreted union bits, which no
well-typed evaluation does, so the model returns a junk default there. -/

/-- Union accessor `v.ival`. -/
def XmlValue.ivalU : XmlValue → Int
  | .vInt i => i
  | _ => 0

/-- Union accessor `v.rval`. -/
def XmlValue.rvalU : XmlValue → RD
  | .vReal r => r
  | _ => .fin 0

/-- IEEE division with NaN propagation; the finite/finite case with a
nonzero divisor is modeled exactly (rounding ignored; no theorem depends
on the quotient digits). -/
def RD.div : RD → RD → RD
  | .fin a, .fin b => .fin (a / b)
  | _, _ => .nan

/-- Model of the `case Opcode::OpDiv` arm of `XmlExprEvaluator::Evaluate`
(xmlexpr.h:1015-1030). -/
def evalDiv (arg0 arg1 : XmlValue) : XmlValue :=
  if arg0.xtype = .tInteger then
    if arg1.ivalU = 0 then .vInt 0
    else .vInt (Int.tdiv arg0.ivalU arg1.ivalU)
  else if RD.eqb arg1.rvalU (.fin 0) then .vReal .nan
  else .vReal (RD.div arg0.rvalU arg1.rvalU)

/-! ## CsvNormalize (src/xml_lib/xmlutils.h:515-535) -/

/-- Model of `XmlUtils::CsvNormalize`.  The quoting branch rebuilds the
string through `ss.str().c_str()`, which truncates the result at the
first NUL byte; the non-quoting branch returns the input object
untouched. -/
def csvNormalize (s : CStr) : CStr :=
  let needsQuotes := s.any (fun c => c = ',' ∨ c = '"' ∨ c = '\n')
  if ¬needsQuotes then s
  else
    cstrT ('"' :: s.foldr (fun c acc => (if c = '"' then ['"', c] else [c]) ++ acc) ['"'])

/-! ## First-N row limiting (src/xml_lib/xmlquery.h)

`JoinAndCommitRow` (xmlquery.h:280-349) runs `CheckFirstNRowsCondition`
(xmlquery.h:528-533) at the head of every commit attempt (one attempt per
input row, or per join-bucket row when joining).  The check increments
`numRowsMatched` and, when `first[n]` was specified and the incremented
count exceeds n, the caller sets `ParseStopped` and breaks before
evaluating, storing or emitting the row; a later attempt in the same pass
repeats the check (the counter keeps rising) and therefore also refuses
to evaluate.  The model folds a pass worth of commit attempts through
exactly this logic and records which attempts were evaluated. -/

/-- The `first[n]` configuration (`FirstNRowsSpecified`, `GetFirstNRows`). -/
structure FirstNSpec where
  specified : Bool
  n : Nat

/-- Per-pass mutable state: `numRowsMatched` and the query
`ParseStopped` flag. -/
structure FirstNState where
  matched : Nat
  stopped : Bool

/-- `XmlQuery::CheckFirstNRowsCondition` (xmlquery.h:528-533): increment
the matched counter, then test it against n. -/
def checkFirstN (spec : FirstNSpec) (st : FirstNState) : FirstNState × Bool :=
  let st1 := { st with matched := st.matched + 1 }
  (st1, spec.specified && decide (st1.matched > spec.n))

/-- Run the commit attempts of one pass (xmlquery.h:316-345
specialized to the check slice): an attempt whose check fires sets
`ParseStopped` and is not evaluated; otherwise the attempt is evaluated
(and possibly stored or emitted downstream). -/
def runFirstN (spec : FirstNSpec) : List α → FirstNState → FirstNState × List α
  | [], st => (st, [])
  | a :: as, st =>
    let (st1, stop) := checkFirstN spec st
    if stop then
      runFirstN spec as { st1 with stopped := true }
    else
      let (st2, outs) := runFirstN spec as st1
      (st2, a :: outs)

/-! ## Sorted emission (src/xml_lib/xmlquery.h:460-506, 194-256)

`SortRows` sorts `m_rowRefs` with `std::sort` under the comparator at
xmlquery.h:490-505.  `std::sort` guarantees only that the output is a
permutation of the input ordered by the comparator; it is not a stable
sort, so the model is the relation `SortedOut` admitting every output
`std::sort` may produce.  `OutputStoredRows` then emits the first
`top[n]` rows in table order, skipping rows that fail an aggregate
filter. -/

/-- A stored row reduced to what sorting observes: its sort-key tail
(the values at indices `firstSortValue ..`) and its insertion position in
the row table (`m_rowRefs` index before sorting). -/
structure SRow where
  key : List XmlValue
  seq : Nat
deriving DecidableEq, Repr

/-- The comparator lambda of `SortRows` (xmlquery.h:491-504): walk the
sort keys; on the first strict difference answer `!rev[i]` or `rev[i]`,
where `rev` is `GetReversedStringSorts`; equal composite keys compare
false. -/
def rowCompLt : List Bool → List XmlValue → List XmlValue → Bool
  | b :: bs, x :: xs, y :: ys =>
    let c := xmlCompare x y
    if c < 0 then !b else if 0 < c then b else rowCompLt bs xs ys
  | _, _, _ => false

/-- Signed composite comparison used to state the claim: the per-key
comparison with key i reversed when `rev[i]`, composed lexicographically. -/
def rowCmpInt : List Bool → List XmlValue → List XmlValue → Int
  | b :: bs, x :: xs, y :: ys =>
    let c := xmlCompare x y
    let cS := if b then -c else c
    if cS = 0 then rowCmpInt bs xs ys else cS
  | _, _, _ => 0

/-- The per-key reversal flag recorded by the planner for one sort
argument (xmlqueryspec.h:610-616): set iff the argument is string-typed
(or Unknown) and its root operator is `neg`. -/
def reversedStringSort (ty : XmlType) (rootIsNeg : Bool) : Bool :=
  (ty = .tUnknown ∨ ty = .tString) ∧ rootIsNeg

/-- Everything `std::sort` promises about `SortRows`: the row-ref table
afterwards is a permutation of the table before, arranged so that no
earlier element compares strictly after a later one. -/
def SortedOut (rev : List Bool) (inp out : List SRow) : Prop :=
  inp.Perm out ∧ out.Pairwise (fun a b => rowCompLt rev b.key a.key = false)

/-- The emission tail of `OutputStoredRows` (xmlquery.h:240-255): cap at
`top[n]` when specified, then emit rows in table order, dropping rows
that fail an aggregate filter. -/
def emittedRows (topSpecified : Bool) (topN : Nat) (pass : SRow → Bool) (out : List SRow) : List SRow :=
  (if topSpecified then out.take topN else out).filter pass

/-! ## Pass list (src/xml_lib/xmlparser.h:148-160)

`GetPassTypes` consults the spec flag `GatherDataPassRequired` (set by
`PostprocessColumnExprs` whenever a parsed operator carries the
`GatherData` flag, xmlqueryspec.h:553-555), the pivoter prepass predicate
(xmlpivot.h:98-101), and `XmlQuery::Streaming` (xmlquery.h:82-85). -/

inductive XmlPassType where
  | passNotSet
  | gatherDataPass
  | mainPass
  | storedValuesPass
deriving DecidableEq, Repr

/-- Operator kinds distinguished by the planner fold modeled here. -/
inductive OpKind where
  | kDistinct
  | kSort
  | kOther
deriving DecidableEq, Repr

/-- The per-operator facts `PostprocessColumnExprs` reads when setting
query-level flags. -/
structure OpInfo where
  gatherData : Bool
  aggregate : Bool
  kind : OpKind

/-- The query-spec flag slice relevant to pass derivation. -/
structure SpecFlags where
  gatherDataPassRequired : Bool
  aggregatesExist : Bool
  distinctUsed : Bool
  hasSortColumn : Bool

/-- One step of `PostprocessColumnExprs` (xmlqueryspec.h:545-617)
restricted to the flags above: aggregates set `AggregatesExist`, a
`GatherData` operator sets `GatherDataPassRequired`, `distinct` sets
`DistinctUsed`, `sort` records the sort column. -/
def postStep (f : SpecFlags) (op : OpInfo) : SpecFlags :=
  { gatherDataPassRequired := f.gatherDataPassRequired || op.gatherData,
    aggregatesExist := f.aggregatesExist || op.aggregate,
    distinctUsed := f.distinctUsed || (op.kind == .kDistinct),
    hasSortColumn := f.hasSortColumn || (op.kind == .kSort) }

/-- Fold the planner walk over every parsed operator. -/
def postFlags (ops : List OpInfo) : SpecFlags :=
  ops.foldl postStep ⟨false, false, false, false⟩

/-- The pivoter state `GetPassTypes` consults. -/
structure PivoterCfg where
  enabled : Bool
  jagged : Bool

/-- `XmlPivoter::RequirePrepass` (xmlpivot.h:98-101). -/
def requirePrepass (p : PivoterCfg) : Bool :=
  p.enabled && p.jagged

/-- The query configuration visible to `GetPassTypes`. -/
structure QueryCfg where
  flags : SpecFlags
  numValueColumns : Nat
  pivot : PivoterCfg

/-- `XmlQuery::Aggregated` (xmlquery.h:513-516). -/
def aggregated (q : QueryCfg) : Bool := q.flags.aggregatesExist

/-- `XmlQuery::Distinct` (xmlquery.h:518-521). -/
def distinctQ (q : QueryCfg) : Bool := q.flags.distinctUsed || aggregated q

/-- `XmlQuery::NeedsSorting` (xmlquery.h:523-526): a sort column exists
and there is at least one value column. -/
def needsSorting (q : QueryCfg) : Bool :=
  q.flags.hasSortColumn && decide (0 < q.numValueColumns)

/-- `XmlQuery::Streaming` (xmlquery.h:82-85). -/
def streamingQ (q : QueryCfg) : Bool :=
  !distinctQ q && !needsSorting q && !aggregated q

/-- Model of `XmlParser::GetPassTypes` (xmlparser.h:148-160). -/
def getPassTypes (q : QueryCfg) : List XmlPassType :=
  let l1 : List XmlPassType :=
    if q.flags.gatherDataPassRequired || requirePrepass q.pivot then [.gatherDataPass] else []
  let l2 := l1 ++ [.mainPass]
  if !streamingQ q then l2 ++ [.storedValuesPass] else l2

/-! ## Path matcher (src/xml_lib/xmlpath.h, xmlmatcher.h)

The tag-list state machine, the per-path match bookkeeping, and the
matcher loop are transcribed below.  Omissions, which no claim settled
here observes: the immediate-evaluation expression hooks (the modeled
paths register none), `GetRelativeParseDepth` and the context fields it
feeds, the `ExistsInInput` diagnostic flag, the `m_localMatchDepth`
field, and `RemoveValueIndents` (identity on values that do not begin
with a tag character, the only values arising below). -/

/-- One `XmlPath::Tag` (xmlpath.h:68-202): literal name or wildcard plus
its advancement counter `m_relativeParseDepth`.  The `m_first`/`m_last`
markers are positional and are recovered from the list structure
(`next()` is the tail; a tag is last iff the tail is empty). -/
structure MTag where
  name : CStr
  wildcard : Bool
  rpd : Int
deriving DecidableEq, Repr

/-- Lowercase fold of an ASCII character (C `tolower`). -/
def charLower (c : Char) : Char :=
  if 'A' ≤ c ∧ c ≤ 'Z' then Char.ofNat (c.toNat + 32) else c

/-- Tag-name equality as `XmlUtils::stringsEqCase` computes it with the
default case-insensitive mode, combined with the `str[len] == '\0'`
full-length check at the call sites (xmlpath.h:114,125,145). -/
def nameEq (a b : CStr) : Bool :=
  a.map charLower == b.map charLower

/-- `rpd` of the head of a tag list, 0 when empty (the list is never
empty where this is read). -/
def headRpd : List MTag → Int
  | [] => 0
  | t :: _ => t.rpd

/-- Model of `Tag::TagList_MatchStartTag` (xmlpath.h:90-136).  Returns
the updated tag list, the boolean result, and the `completeMatch` output
flag.  Mutations performed before a `false` return (the wildcard bump at
xmlpath.h:117 followed by a failing recursion) are preserved, exactly as
the in-place C++ mutation is. -/
def tagListMatchStart (tag : CStr) : Int → List MTag → List MTag × Bool × Bool
  | _, [] => ([], false, false)
  | cpd, t :: rest =>
    if 0 < t.rpd then
      match rest with
      | [] => (t :: rest, false, false)
      | _ :: _ =>
        let (rest1, r1, cm1) := tagListMatchStart tag (cpd - t.rpd) rest
        if r1 then (t :: rest1, true, cm1)
        else if t.wildcard ∧ headRpd rest1 = 0 then
          let t1 := if 0 < cpd then { t with rpd := t.rpd + 1 } else t
          (t1 :: rest1, true, cm1)
        else (t :: rest1, false, cm1)
    else
      match rest with
      | next :: _ =>
        if t.wildcard ∧ nameEq next.name tag then
          let t1 := if 0 < cpd then { t with rpd := t.rpd + 1 } else t
          let (rest1, r1, cm1) := tagListMatchStart tag (cpd - t1.rpd) rest
          (t1 :: rest1, r1, cm1)
        else if t.wildcard ∨ nameEq t.name tag then
          let t1 := if 0 < cpd then { t with rpd := t.rpd + 1 } else t
          (t1 :: rest, true, false)
        else (t :: rest, false, false)
      | [] =>
        if t.wildcard ∨ nameEq t.name tag then
          let t1 := if 0 < cpd then { t with rpd := t.rpd + 1 } else t
          (t1 :: rest, true, true)
        else (t :: rest, false, false)

/-- Model of `Tag::TagList_MatchEndTag` (xmlpath.h:138-150). -/
def tagListMatchEnd (tag : CStr) : List MTag → List MTag × Bool
  | [] => ([], false)
  | t :: rest =>
    if 0 < headRpd rest then
      let (rest1, r) := tagListMatchEnd tag rest
      (t :: rest1, r)
    else if 0 < t.rpd ∧ (t.wildcard ∨ nameEq t.name tag) then
      ({ t with rpd := t.rpd - 1 } :: rest, true)
    else (t :: rest, false)

/-- Zero every advancement counter (`Tag_Reset(-1)` cascading). -/
def zeroTags (ts : List MTag) : List MTag :=
  ts.map (fun t => { t with rpd := 0 })

/-- Model of `Tag::Tag_Reset` (xmlpath.h:152-173): cap the cumulative
advancement at `rollbackDepth`, zeroing everything past the cap. -/
def tagReset (rollbackDepth : Int) : List MTag → List MTag
  | [] => []
  | t :: rest =>
    if rollbackDepth = -1 then { t with rpd := 0 } :: zeroTags rest
    else if rollbackDepth < t.rpd then { t with rpd := rollbackDepth } :: zeroTags rest
    else
      match rest with
      | [] => t :: rest
      | _ :: _ => t :: tagReset (rollbackDepth - t.rpd) rest

/-- `XmlPath::MatchState` (xmlpath.h:205-212). -/
inductive PathMS where
  | uninitializedMS
  | searchingForStartTag
  | completingStartTag
  | searchingForEndTag
  | foundEndTag
deriving DecidableEq, Repr

/-- One `XmlPath` together with the `XmlPathRef` bits it owns: the
NoData/Sync flags, whether end-match expressions are registered (always
false below), the tag list, the match state machine, the match order,
the mismatch depth, the `Matched` flag of the path-ref, and the bound
string value. -/
structure MPath where
  noData : Bool
  sync : Bool
  hasEndExprs : Bool
  tags : List MTag
  pstate : PathMS
  matchOrder : Int
  matchDepth : Int
  mismatchDepth : Int
  matchedFlag : Bool
  str : CStr
deriving DecidableEq, Repr

/-- `XmlRowMatchState` (xmlpath.h:36-61) without the cached `matchType`
(recomputed on demand by `getMatchType`). -/
structure RowSt where
  matchOrder : Int
  currParseDepth : Int
  searchCnt : Int
deriving DecidableEq, Repr

/-- Model of `XmlPath::Path_MatchStartTag` (xmlpath.h:266-311): the tag
walk, the mismatch-depth shadowing, and the match-order bookkeeping on a
complete match.  Returns the path, the row state, and whether a complete
start match happened. -/
def pathMatchStart (tag : CStr) (p : MPath) (rs : RowSt) : MPath × RowSt × Bool :=
  if p.pstate = .foundEndTag ∨ p.pstate = .searchingForEndTag then (p, rs, false)
  else if 0 < p.mismatchDepth then
    ({ p with mismatchDepth := p.mismatchDepth + 1 }, rs, false)
  else
    let (tags1, r, cm) := tagListMatchStart tag rs.currParseDepth p.tags
    if ¬r then ({ p with tags := tags1, mismatchDepth := p.mismatchDepth + 1 }, rs, false)
    else if ¬cm then ({ p with tags := tags1, pstate := .completingStartTag }, rs, false)
    else
      let (mo, rsOrder) :=
        if p.matchOrder = -1 then (rs.matchOrder, rs.matchOrder + 1)
        else if p.matchOrder < rs.matchOrder then (p.matchOrder, p.matchOrder + 1)
        else (p.matchOrder, rs.matchOrder)
      ({ p with tags := tags1, str := [], pstate := .searchingForEndTag,
                matchDepth := rs.currParseDepth, matchOrder := mo, matchedFlag := true },
       { rs with matchOrder := rsOrder, searchCnt := rs.searchCnt + 1 }, true)

/-- Model of `XmlPath::Path_MatchEndTag` (xmlpath.h:313-340); the
whitespace trim of the bound value keeps the front characters after
spaces, tabs, carriage returns and newlines and drops trailing spaces,
tabs and newlines (`XmlUtils::TrimWhitespace`, whose trailing loop tests
the first character for the carriage return, so a trailing one stays). -/
def trimWS (s : CStr) : CStr :=
  let s1 := s.dropWhile (fun c => c = ' ' ∨ c = '\t' ∨ c = '\r' ∨ c = '\n')
  (s1.reverse.dropWhile (fun c => c = ' ' ∨ c = '\t' ∨ c = '\n')).reverse

/-- Model of `XmlPath::Path_MatchEndTag`. -/
def pathMatchEnd (tag : CStr) (p : MPath) (rs : RowSt) : MPath × RowSt × Bool :=
  if 0 < p.mismatchDepth then
    ({ p with mismatchDepth := p.mismatchDepth - 1 }, rs, false)
  else
    let (tags1, r) := tagListMatchEnd tag p.tags
    if r ∧ p.pstate = .searchingForEndTag then
      ({ p with tags := tags1, str := trimWS p.str, pstate := .foundEndTag },
       { rs with searchCnt := rs.searchCnt - 1 }, true)
    else ({ p with tags := tags1 }, rs, false)

/-- `XmlPath::IsMatched` (xmlpath.h:342-348). -/
def pathIsMatched (p : MPath) : Bool :=
  ¬(p.pstate = .searchingForEndTag) ∧ (p.matchedFlag ∨ p.str ≠ [])

/-- `XmlPath::ClearValues` (xmlpath.h:368-378). -/
def pathClearValues (hard : Bool) (p : MPath) : MPath :=
  let p1 := { p with matchedFlag := false, matchDepth := -1, str := [] }
  if hard then { p1 with matchOrder := -1, pstate := .searchingForStartTag } else p1

/-- `XmlPath::Path_Reset` (xmlpath.h:360-366): hard-clear the path when
its match order is at least `matchOrderStart`, then cap its tag
advancement at `parseDepth`. -/
def pathReset (parseDepth matchOrderStart : Int) (p : MPath) : MPath :=
  let p1 := if p.matchOrder ≥ matchOrderStart then pathClearValues true p else p
  { p1 with tags := tagReset parseDepth p1.tags }

/-- `XmlPath::AppendValue` (xmlpath.h:390-395). -/
def pathAppendValue (d : CStr) (p : MPath) : MPath :=
  if ¬p.noData ∧ p.pstate = .searchingForEndTag ∧ d ≠ [] then
    { p with str := p.str ++ d }
  else p

/-- Matcher state: the path list and the shared row state.  The list
order models the order in which `XmlParser::ResetPathMatching`
(xmlparser.h:420-434) pushes the paths, i.e. the iteration order of the
`unordered_map` of path refs (xmlqueryspec.h:36), which is
implementation-defined; statements that depend on it are therefore
quantified over every arrangement of the path set. -/
structure MState where
  paths : List MPath
  rs : RowSt
deriving DecidableEq, Repr

/-- The path loop of `XmlMatcher::MatchStartTag` (xmlmatcher.h:71-73),
threading the shared row state left to right. -/
def foldStart (tag : CStr) : List MPath → RowSt → List MPath × RowSt × Bool
  | [], rs => ([], rs, false)
  | p :: ps, rs =>
    let (p1, rs1, m) := pathMatchStart tag p rs
    let (ps1, rs2, ms) := foldStart tag ps rs1
    (p1 :: ps1, rs2, m || ms)

/-- Model of `XmlMatcher::MatchStartTag` (xmlmatcher.h:59-86): bump the
parse depth, run every path, and if any path detected a match, reset
every path against the updated match-order counter. -/
def matcherMatchStart (tag : CStr) (s : MState) : MState × Bool :=
  match s.paths with
  | [] => (s, false)
  | _ :: _ =>
    let rs1 := { s.rs with currParseDepth := s.rs.currParseDepth + 1 }
    let (paths1, rs2, det) := foldStart tag s.paths rs1
    if det then
      ({ paths := paths1.map (pathReset rs2.currParseDepth rs2.matchOrder), rs := rs2 }, true)
    else ({ paths := paths1, rs := rs2 }, false)

/-- The path loop of `XmlMatcher::MatchEndTag` (xmlmatcher.h:92-94). -/
def foldEnd (tag : CStr) : List MPath → RowSt → List MPath × RowSt × Bool
  | [], rs => ([], rs, false)
  | p :: ps, rs =>
    let (p1, rs1, m) := pathMatchEnd tag p rs
    let (ps1, rs2, ms) := foldEnd tag ps rs1
    (p1 :: ps1, rs2, m || ms)

/-- Model of `XmlMatcher::MatchEndTag` (xmlmatcher.h:88-99). -/
def matcherMatchEnd (tag : CStr) (s : MState) : MState × Bool :=
  match s.paths with
  | [] => (s, false)
  | _ :: _ =>
    let (paths1, rs1, det) := foldEnd tag s.paths s.rs
    ({ paths := paths1, rs := { rs1 with currParseDepth := rs1.currParseDepth - 1 } }, det)

/-- `XmlRowMatchState::MatchType`. -/
inductive MatchTy where
  | notAllMatched
  | allMatched
  | allMatchedWithNoDataMatches
deriving DecidableEq, Repr

/-- The path loop of `XmlMatcher::GetMatchType` (xmlmatcher.h:109-141)
with its break semantics: a matched sync path ends the loop with
`allMatched` true; a NoData path without end-match expressions that is
still searching for its end tag counts as matched; any other unmatched
path ends the loop with `allMatched` false.  (The C++ line that would
set `withNoDataMatches` is commented out, so it stays false.) -/
def gmtLoop : List MPath → Bool → Bool → Bool × Bool
  | [], am, wnd => (am, wnd)
  | p :: ps, _, wnd =>
    if p.sync ∧ pathIsMatched p then (true, wnd)
    else
      let (am1, wnd1) :=
        if (p.noData ∧ ¬p.hasEndExprs) ∧ p.pstate = .searchingForEndTag then (true, wnd)
        else if pathIsMatched p then (true, wnd)
        else (false, false)
      if ¬am1 then (false, wnd1) else gmtLoop ps am1 wnd1

/-- Model of `XmlMatcher::GetMatchType`. -/
def getMatchType (s : MState) : MatchTy :=
  let (am, wnd) := gmtLoop s.paths (¬s.paths.isEmpty) false
  if ¬am then .notAllMatched
  else if wnd then .allMatchedWithNoDataMatches
  else .allMatched

/-- Model of `XmlMatcher::CommitMatch` (xmlmatcher.h:101-107):
`StartMatch` every path (keeping its match order and bound value). -/
def commitMatch (s : MState) : MState :=
  { s with paths := s.paths.map (fun p => { p with pstate := .searchingForStartTag }) }

/-- A normalized input event as the parser hands it to the matcher. -/
inductive XEvent where
  | startT (name : CStr)
  | endT (name : CStr)
  | textT (data : CStr)
deriving Repr

/-- The matcher-relevant slice of the parser loop (xmlparser.h:300-394):
a start tag runs `MatchStartTag` and commits on
`AllMatchedWithNoDataMatches`; an end tag runs `MatchEndTag` and commits
on a matched end tag with `AllMatched`; character data is forwarded to
every path (`Redirect` with `AppendValues`, xmlparser.h:690-692, with
each path applying its own acceptance guard). -/
def procEvent (s : MState) (e : XEvent) : MState :=
  match e with
  | .startT n =>
    let (s1, _) := matcherMatchStart n s
    if getMatchType s1 = .allMatchedWithNoDataMatches then commitMatch s1 else s1
  | .endT n =>
    let (s1, r) := matcherMatchEnd n s
    if r ∧ getMatchType s1 = .allMatched then commitMatch s1 else s1
  | .textT d =>
    { s with paths := s.paths.map (pathAppendValue d) }

/-- Run a whole event stream. -/
def procEvents (s : MState) (es : List XEvent) : MState :=
  es.foldl procEvent s

/-- Build the tag list of a path from its dotted segments, synthesizing
the leading wildcard when absent (xmlpath.h:232-245); `*` segments are
wildcards. -/
def mkTags (segs : List CStr) : List MTag :=
  let segs1 := if segs.headD [] = ['*'] then segs else ['*'] :: segs
  segs1.map (fun n => { name := n, wildcard := n = ['*'], rpd := 0 })

/-- A fresh path for the given segments and flags, in the state
`XmlMatcher::Reset` leaves it in before the synthetic root tag. -/
def mkPath (segs : List CStr) (noData sync : Bool) : MPath :=
  { noData := noData, sync := sync, hasEndExprs := false,
    tags := mkTags segs, pstate := .searchingForStartTag,
    matchOrder := -1, matchDepth := -1, mismatchDepth := 0,
    matchedFlag := false, str := [] }

/-- The synthetic root tag `__root` pushed by `XmlMatcher::Reset`
(xmlmatcher.h:159-172). -/
def rootTag : CStr := ['_', '_', 'r', 'o', 'o', 't']

/-- Model of `XmlMatcher::Reset` applied to freshly built paths: zero
the row state, reset every path, and feed the synthetic root start
tag. -/
def initMatcher (paths : List MPath) : MState :=
  let s0 : MState :=
    { paths := paths.map (pathReset (-1) (-1)),
      rs := { matchOrder := 0, currParseDepth := 0, searchCnt := 0 } }
  (matcherMatchStart rootTag s0).1

/-! ## Order-theoretic facts about the comparison primitives -/

theorem lexSign_refl (l : CStr) : lexSign l l = 0 := by
  induction l with
  | nil => rfl
  | cons a as ih => simp [lexSign, ih]

theorem lexSign_antisym (a b : CStr) : lexSign a b = -lexSign b a := by
  induction a generalizing b with
  | nil => cases b <;> simp [lexSign]
  | cons x xs ih =>
    cases b with
    | nil => simp [lexSign]
    | cons y ys =>
      simp only [lexSign]
      rcases Nat.lt_trichotomy x.toNat y.toNat with h | h | h
      · simp [h, Nat.lt_asymm h]
      · simp [h, ih]
      · simp [h, Nat.lt_asymm h]

theorem lexSign_range (a b : CStr) : lexSign a b = -1 ∨ lexSign a b = 0 ∨ lexSign a b = 1 := by
  induction a generalizing b with
  | nil => cases b <;> simp [lexSign]
  | cons x xs ih =>
    cases b with
    | nil => simp [lexSign]
    | cons y ys =>
      simp only [lexSign]
      split_ifs <;> simp [ih]

theorem strcmpSign_refl (s : CStr) : strcmpSign s s = 0 := lexSign_refl _

theorem strcmpSign_antisym (a b : CStr) : strcmpSign a b = -strcmpSign b a := lexSign_antisym _ _

theorem charToNat_pos (c : Char) (h : c ≠ Char.ofNat 0) : 0 < c.toNat := by
  by_contra hle
  push_neg at hle
  have h0 : c.toNat = 0 := Nat.le_zero.mp hle
  apply h
  have hh := Char.ofNat_toNat c
  rw [h0] at hh
  exact hh.symm

theorem noNul_cstrT (s : CStr) : ∀ c ∈ cstrT s, c ≠ Char.ofNat 0 := by
  intro c hc
  have hh := List.mem_takeWhile_imp hc
  simpa using hh

theorem strcmpGlibc_sign_aux : ∀ (a b : CStr),
    (∀ c ∈ a, c ≠ Char.ofNat 0) → (∀ c ∈ b, c ≠ Char.ofNat 0) →
    (strcmpGlibc a b).sign = lexSign a b := by
  intro a
  induction a with
  | nil =>
    intro b _ hb
    cases b with
    | nil => rfl
    | cons y ys =>
      have hy := charToNat_pos y (hb y (List.mem_cons_self y ys))
      simp only [strcmpGlibc, lexSign, Int.sign_neg]
      have h1 : (0 : Int) < (y.toNat : Int) := by exact_mod_cast hy
      rw [Int.sign_eq_one_iff_pos.mpr h1]
  | cons x xs ih =>
    intro b ha hb
    cases b with
    | nil =>
      have hx := charToNat_pos x (ha x (List.mem_cons_self x xs))
      simp only [strcmpGlibc, lexSign]
      have h1 : (0 : Int) < (x.toNat : Int) := by exact_mod_cast hx
      rw [Int.sign_eq_one_iff_pos.mpr h1]
    | cons y ys =>
      simp only [strcmpGlibc, lexSign]
      by_cases hxy : x.toNat = y.toNat
      · rw [if_pos hxy, if_neg (by omega), if_neg (by omega)]
        exact ih ys (fun c hc => ha c (List.mem_cons_of_mem _ hc))
          (fun c hc => hb c (List.mem_cons_of_mem _ hc))
      · rw [if_neg hxy]
        rcases Nat.lt_or_ge x.toNat y.toNat with h | h
        · rw [if_pos h]
          have hneg : (x.toNat : Int) - y.toNat < 0 := by omega
          rw [Int.sign_eq_neg_one_iff_neg.mpr hneg]
        · have hgt : y.toNat < x.toNat := by omega
          rw [if_neg (by omega), if_pos hgt]
          have hpos : (0 : Int) < (x.toNat : Int) - y.toNat := by omega
          rw [Int.sign_eq_one_iff_pos.mpr hpos]

theorem strcmpGlibc_ok : strcmpOK strcmpGlibc := by
  intro a b
  exact strcmpGlibc_sign_aux (cstrT a) (cstrT b) (noNul_cstrT a) (noNul_cstrT b)

theorem dt_ltb_iff_lex (a b : XmlDateTime)
    (hea : a.error = false) (heb : b.error = false) :
    (XmlDateTime.ltb a b = true ↔ dtLexLt a b) := by
  obtain ⟨e1, d1, y1, mo1, dd1, h1, mi1, s1, f1⟩ := a
  obtain ⟨e2, d2, y2, mo2, dd2, h2, mi2, s2, f2⟩ := b
  simp only at hea heb
  subst hea heb
  cases d1 <;> cases d2 <;>
    simp only [XmlDateTime.ltb, dtLexLt, XmlDateTime.rank, XmlDateTime.hEff,
      XmlDateTime.miEff, XmlDateTime.sEff, XmlDateTime.msEff, Bool.false_eq_true, or_self,
      if_false, if_true, ite_true, ite_false, reduceIte, Bool.true_eq_false, not_true_eq_false,
      not_false_eq_true, true_and, and_true, false_and, and_false, gt_iff_lt]
  all_goals try simp only [ite_eq_iff]
  all_goals try simp only [Bool.false_eq_true, Bool.true_eq_false, and_true, and_false,
    false_or, or_false, true_and, false_and, not_lt, ne_eq, not_not, false_iff, iff_false,
    true_iff, iff_true]
  all_goals omega

theorem dt_eqb_iff_fields (a b : XmlDateTime)
    (hea : a.error = false) (heb : b.error = false) :
    (XmlDateTime.eqb a b = true ↔ dtFieldsEq a b) := by
  obtain ⟨e1, d1, y1, mo1, dd1, h1, mi1, s1, f1⟩ := a
  obtain ⟨e2, d2, y2, mo2, dd2, h2, mi2, s2, f2⟩ := b
  simp only at hea heb
  subst hea heb
  cases d1 <;> cases d2 <;>
    simp only [XmlDateTime.eqb, dtFieldsEq, XmlDateTime.rank, XmlDateTime.hEff,
      XmlDateTime.miEff, XmlDateTime.sEff, XmlDateTime.msEff, Bool.false_eq_true, or_self,
      if_false, if_true, ite_true, ite_false, reduceIte, Bool.true_eq_false, ne_eq,
      not_true_eq_false, not_false_eq_true, true_and, and_true, false_and, and_false, not_not]
  all_goals try simp only [ite_eq_iff]
  all_goals try simp only [Bool.false_eq_true, Bool.true_eq_false, and_true, and_false,
    false_or, or_false, true_and, false_and, not_lt, ne_eq, not_not, false_iff, iff_false,
    true_iff, iff_true]
  all_goals omega

theorem typeCode_inj (t1 t2 : XmlType) (h : t1.code = t2.code) : t1 = t2 := by
  cases t1 <;> cases t2 <;> first | rfl | (exact absurd h (by decide))

theorem dt_ltb_asymm (a b : XmlDateTime) (ha : a.error = false) (hb : b.error = false)
    (h : XmlDateTime.ltb a b = true) :
    XmlDateTime.ltb b a = false ∧ XmlDateTime.eqb a b = false ∧ XmlDateTime.eqb b a = false := by
  have hl : dtLexLt a b := (dt_ltb_iff_lex a b ha hb).mp h
  refine ⟨?_, ?_, ?_⟩
  · cases hq : XmlDateTime.ltb b a
    · rfl
    · exfalso
      have hl2 := (dt_ltb_iff_lex b a hb ha).mp hq
      unfold dtLexLt at hl hl2
      omega
  · cases hq : XmlDateTime.eqb a b
    · rfl
    · exfalso
      have he := (dt_eqb_iff_fields a b ha hb).mp hq
      unfold dtLexLt at hl
      unfold dtFieldsEq at he
      omega
  · cases hq : XmlDateTime.eqb b a
    · rfl
    · exfalso
      have he := (dt_eqb_iff_fields b a hb ha).mp hq
      unfold dtLexLt at hl
      unfold dtFieldsEq at he
      omega

theorem dt_eqb_no_lt (a b : XmlDateTime) (ha : a.error = false) (hb : b.error = false)
    (h : XmlDateTime.eqb a b = true) :
    XmlDateTime.eqb b a = true ∧ XmlDateTime.ltb a b = false ∧ XmlDateTime.ltb b a = false := by
  have he : dtFieldsEq a b := (dt_eqb_iff_fields a b ha hb).mp h
  refine ⟨(dt_eqb_iff_fields b a hb ha).mpr ?_, ?_, ?_⟩
  · unfold dtFieldsEq at he ⊢
    omega
  · cases hq : XmlDateTime.ltb a b
    · rfl
    · exfalso
      have hl := (dt_ltb_iff_lex a b ha hb).mp hq
      unfold dtLexLt at hl
      unfold dtFieldsEq at he
      omega
  · cases hq : XmlDateTime.ltb b a
    · rfl
    · exfalso
      have hl := (dt_ltb_iff_lex b a hb ha).mp hq
      unfold dtLexLt at hl
      unfold dtFieldsEq at he
      omega

theorem dt_trichotomy (a b : XmlDateTime) (ha : a.error = false) (hb : b.error = false) :
    XmlDateTime.ltb a b = true ∨ XmlDateTime.eqb a b = true ∨ XmlDateTime.ltb b a = true := by
  by_cases h1 : dtLexLt a b
  · exact Or.inl ((dt_ltb_iff_lex a b ha hb).mpr h1)
  by_cases h2 : dtLexLt b a
  · exact Or.inr (Or.inr ((dt_ltb_iff_lex b a hb ha).mpr h2))
  · refine Or.inr (Or.inl ((dt_eqb_iff_fields a b ha hb).mpr ?_))
    unfold dtLexLt at h1 h2
    unfold dtFieldsEq
    omega

theorem xmlCompare_refl (a : XmlValue) (h : a.wf) : xmlCompare a a = 0 := by
  cases a with
  | vStr s => simpa [xmlCompare, XmlValue.xtype] using strcmpSign_refl s
  | vReal r =>
    cases r with
    | fin q => simp [xmlCompare, XmlValue.xtype, RD.lt, RD.eqb]
    | nan => exact h.elim
  | vInt i => simp [xmlCompare, XmlValue.xtype]
  | vBool b => cases b <;> decide
  | vDT d =>
    have hd : d.error = false := h
    have heq : XmlDateTime.eqb d d = true := by
      refine (dt_eqb_iff_fields d d hd hd).mpr ?_
      unfold dtFieldsEq
      omega
    have hlt : XmlDateTime.ltb d d = false := by
      cases hq : XmlDateTime.ltb d d
      · rfl
      · exfalso
        have hl := (dt_ltb_iff_lex d d hd hd).mp hq
        unfold dtLexLt at hl
        omega
    simp [xmlCompare, XmlValue.xtype, hlt, heq]
  | vUnknown => decide

theorem xmlCompare_antisym (a b : XmlValue) (ha : a.wf) (hb : b.wf) :
    xmlCompare a b = -xmlCompare b a := by
  cases a <;> cases b
  case vStr.vStr s1 s2 =>
    simpa [xmlCompare, XmlValue.xtype] using strcmpSign_antisym s1 s2
  case vReal.vReal r1 r2 =>
    cases r1 with
    | nan => exact ha.elim
    | fin q1 =>
      cases r2 with
      | nan => exact hb.elim
      | fin q2 =>
        rcases lt_trichotomy q1 q2 with h | h | h
        · simp [xmlCompare, XmlValue.xtype, RD.lt, RD.eqb, h, not_lt_of_gt h, h.ne, h.ne']
        · subst h
          simp [xmlCompare, XmlValue.xtype, RD.lt, RD.eqb]
        · simp [xmlCompare, XmlValue.xtype, RD.lt, RD.eqb, h, not_lt_of_gt h, h.ne, h.ne']
  case vInt.vInt i1 i2 =>
    simp only [xmlCompare, XmlValue.xtype, ne_eq, not_true_eq_false, if_false, reduceIte]
    split_ifs <;> omega
  case vBool.vBool b1 b2 => cases b1 <;> cases b2 <;> decide
  case vDT.vDT d1 d2 =>
    have h1 : d1.error = false := ha
    have h2 : d2.error = false := hb
    rcases dt_trichotomy d1 d2 h1 h2 with h | h | h
    · obtain ⟨hr, he1, he2⟩ := dt_ltb_asymm d1 d2 h1 h2 h
      simp [xmlCompare, XmlValue.xtype, h, hr, he1, he2]
    · obtain ⟨hs, hl1, hl2⟩ := dt_eqb_no_lt d1 d2 h1 h2 h
      simp [xmlCompare, XmlValue.xtype, h, hs, hl1, hl2]
    · obtain ⟨hr, he1, he2⟩ := dt_ltb_asymm d2 d1 h2 h1 h
      simp [xmlCompare, XmlValue.xtype, h, hr, he1, he2]
  case vUnknown.vUnknown => decide
  all_goals simp [xmlCompare, XmlValue.xtype, XmlType.code]

theorem xmlCompare_range (a b : XmlValue) :
    xmlCompare a b = -1 ∨ xmlCompare a b = 0 ∨ xmlCompare a b = 1 := by
  cases a <;> cases b
  case vStr.vStr s1 s2 =>
    simpa [xmlCompare, XmlValue.xtype, strcmpSign] using lexSign_range (cstrT s1) (cstrT s2)
  all_goals simp only [xmlCompare, XmlValue.xtype, XmlType.code, ne_eq]
  all_goals split_ifs <;> simp

theorem xmlCompareG_sign (scmp : CStr → CStr → Int) (hok : strcmpOK scmp)
    (a b : XmlValue) : (xmlCompareG scmp a b).sign = xmlCompare a b := by
  cases a <;> cases b
  case vStr.vStr s1 s2 =>
    simpa [xmlCompareG, xmlCompare, XmlValue.xtype, strcmpSign] using hok s1 s2
  all_goals simp only [xmlCompareG, xmlCompare, XmlValue.xtype, XmlType.code, ne_eq]
  all_goals split_ifs <;> rfl

/-! ## Claim C1: conversion idempotence -/

/-- C1 counterexample.  The claim states that for every value v and type
t, `Compare(Convert(Convert(v,t),t), Convert(v,t))` is 0.  At v = the
string value `"x"` and t = DateTime this fails: `FromString("x")` yields
a datetime with the error flag set, both conversions produce that same
error datetime, and `Compare` on two error datetimes returns 1 (neither
`operator<` nor `operator==` accepts an error datetime, xmlbase.h:74-120,
538-558). -/
theorem C1_idempotence_cex :
    xmlCompare (convertV (convertV (.vStr ['x']) .tDateTime) .tDateTime)
      (convertV (.vStr ['x']) .tDateTime) ≠ 0 := by decide

/-- C1 (amended): conversion is idempotent on the same type as an
identity of values — `Convert(Convert(v,t),t)` and `Convert(v,t)` are the
same value for every v and t — and the engine equality
`Compare(·,·) = 0` holds between them whenever `Convert(v,t)` is
well-formed, i.e. is not an error datetime and not a NaN real. -/
theorem C1_convert_idempotent : ∀ (v : XmlValue) (t : XmlType),
    convertV (convertV v t) t = convertV v t ∧
    ((convertV v t).wf →
      xmlCompare (convertV (convertV v t) t) (convertV v t) = 0) := by
  intro v t
  have hst : convertV (convertV v t) t = convertV v t := by
    cases t <;> cases v <;> rfl
  exact ⟨hst, fun hw => by rw [hst]; exact xmlCompare_refl _ hw⟩

/-- C1 witness: the string `"5"` converted to Integer twice. -/
theorem C1_convert_idempotent_witness :
    (convertV (.vStr ['5']) .tInteger).wf ∧
    xmlCompare (convertV (convertV (.vStr ['5']) .tInteger) .tInteger)
      (convertV (.vStr ['5']) .tInteger) = 0 :=
  ⟨by decide, (C1_convert_idempotent (.vStr ['5']) .tInteger).2 (by decide)⟩

/-! ## Claim C2: Compare as a total order -/

/-- C2 counterexample, two parts.  Reflexivity: for the reachable value
a = `Convert("y", DateTime)` — a datetime with the error flag set —
`Compare(a,a)` is 1 under every `strcmp` implementation (the String arm
is not involved), because `XmlDateTime::operator<` and `operator==` both
reject error datetimes (xmlbase.h:74-120), so the ladder in `Compare`
(xmlbase.h:551-552) falls through to 1; the same value also violates
antisymmetry.  Range: the String arm returns raw `strcmp`
(xmlbase.h:554), and with the glibc implementation, which returns the
difference of the first differing bytes, `Compare("z","a")` is 25 —
outside the claimed range −1/0/1. -/
theorem C2_reflexivity_cex :
    xmlCompareG strcmpGlibc (convertV (.vStr ['y']) .tDateTime)
      (convertV (.vStr ['y']) .tDateTime) = 1 ∧
    xmlCompareG strcmpGlibc (.vStr ['z']) (.vStr ['a']) = 25 := by decide

/-- C2 (amended): for every `strcmp` implementation obeying the C sign
contract, the sign of `Compare` equals the sign model `xmlCompare`, so
pairs are classified below/equal/above by type-ladder position across
types and natural payload order within a type; values of differing types
compare to exactly −1 or 1; a well-formed value (not an error datetime,
not a NaN real) compares to itself as exactly 0; and antisymmetry holds
at the level of signs.  The exact returned value on the String arm is
whatever the library returns — glibc returns byte differences — so the
originally claimed −1/0/1 range and the exact equation
`Compare(a,b) = −Compare(b,a)` hold in general only as sign
statements. -/
theorem C2_compare_total_order : ∀ (scmp : CStr → CStr → Int), strcmpOK scmp →
    ∀ a b : XmlValue,
    (xmlCompareG scmp a b).sign = xmlCompare a b ∧
    (a.xtype ≠ b.xtype →
      xmlCompareG scmp a b = (if a.xtype.code < b.xtype.code then -1 else 1)) ∧
    (a.wf → xmlCompareG scmp a a = 0) ∧
    (a.wf → b.wf → (xmlCompareG scmp a b).sign = -(xmlCompareG scmp b a).sign) := by
  intro scmp hok a b
  refine ⟨xmlCompareG_sign scmp hok a b, ?_, ?_, ?_⟩
  · intro h
    have hc : a.xtype.code ≠ b.xtype.code := fun hcode => h (typeCode_inj _ _ hcode)
    simp only [xmlCompareG, if_pos h]
    split_ifs <;> omega
  · intro ha
    have h0 : (xmlCompareG scmp a a).sign = 0 := by
      rw [xmlCompareG_sign scmp hok a a]
      exact xmlCompare_refl a ha
    exact Int.sign_eq_zero_iff_zero.mp h0
  · intro ha hb
    rw [xmlCompareG_sign scmp hok a b, xmlCompareG_sign scmp hok b a]
    exact xmlCompare_antisym a b ha hb

/-- C2 witness: the glibc byte-difference `strcmp` satisfies the sign
contract; the theorem applied to it at well-formed integers and at a
cross-typed pair. -/
theorem C2_compare_total_order_witness :
    xmlCompareG strcmpGlibc (.vInt 3) (.vInt 3) = 0 ∧
    (xmlCompareG strcmpGlibc (.vInt 3) (.vInt 5)).sign
      = -(xmlCompareG strcmpGlibc (.vInt 5) (.vInt 3)).sign ∧
    xmlCompareG strcmpGlibc (.vInt 3) (.vStr []) =
      (if (XmlValue.vInt 3).xtype.code < (XmlValue.vStr []).xtype.code then -1 else 1) :=
  ⟨(C2_compare_total_order strcmpGlibc strcmpGlibc_ok (.vInt 3) (.vInt 3)).2.2.1 trivial,
   (C2_compare_total_order strcmpGlibc strcmpGlibc_ok (.vInt 3) (.vInt 5)).2.2.2 trivial trivial,
   (C2_compare_total_order strcmpGlibc strcmpGlibc_ok (.vInt 3) (.vStr [])).2.1 (by decide)⟩

/-! ## Claim C10: FromString year window -/

/-- C10: the code is wrong and the claim (backed by the assert at
xmlbase.h:335, `year >= 1950 && year <= 2049`) is right.  The year
windowing maps years ≤ 49 and 50–99 into 1950–2049 and rejects years
above 2049, but a four-digit-or-more year between 100 and 1949 slips
through all three tests (xmlbase.h:257-265): `FromString("1000-01-02")`
returns a non-error datetime with year 1000, violating the function's
own assert in a debug build and the claimed 1950–2049 window in a
release build. -/
theorem C10_year_window_bug :
    (fromStringM ['1', '0', '0', '0', '-', '0', '1', '-', '0', '2'] []).error = false ∧
    (fromStringM ['1', '0', '0', '0', '-', '0', '1', '-', '0', '2'] []).year = 1000 ∧
    ¬(1950 ≤ (fromStringM ['1', '0', '0', '0', '-', '0', '1', '-', '0', '2'] []).year) := by
  decide

/-! ## Claim C5: division by zero -/

/-- C5: evaluating `OpDiv` with a zero divisor yields the integer 0 when
the operands are integer-typed (xmlexpr.h:1017-1019) and NaN when they
are real-typed (xmlexpr.h:1024-1026); no error path exists (the model is
a total function, as is the C++ switch arm). -/
theorem C5_div_zero_fallback : ∀ (a : Int) (r : RD),
    evalDiv (.vInt a) (.vInt 0) = .vInt 0 ∧
    evalDiv (.vReal r) (.vReal (.fin 0)) = .vReal .nan := by
  intro a r
  constructor
  · simp [evalDiv, XmlValue.xtype, XmlValue.ivalU]
  · simp [evalDiv, XmlValue.xtype, XmlValue.rvalU, RD.eqb]

/-! ## Claim C6: aggregate Min/Max -/

/-- C6: the code is wrong and the claim describes the evident intent.
`BasicAggrHelper` initializes `m_max` with `DBL_MIN` (xmlaggr.h:134),
which is the smallest positive normalized double (2^−1022), not the most
negative one, so `GetAggregate(Max)` over the one-element sequence [−5]
returns 2^−1022 instead of −5.  `m_min` is initialized with `DBL_MAX`,
so `GetAggregate(Min)` is correct at the same input. -/
theorem C6_max_init_bug :
    ((XmlAggregate.mk BasicAggr.init).updateAll [-5]).getAggregateMax = .vReal (.fin dblMin) ∧
    dblMin ≠ (-5 : ℚ) ∧
    ((XmlAggregate.mk BasicAggr.init).updateAll [-5]).getAggregateMin = .vReal (.fin (-5)) := by
  refine ⟨?_, by norm_num [dblMin], ?_⟩
  · simp only [XmlAggregate.updateAll, List.foldl, XmlAggregate.update, BasicAggr.update,
      BasicAggr.init, XmlAggregate.getAggregateMax, dblMin, dblMax]
    norm_num
  · simp only [XmlAggregate.updateAll, List.foldl, XmlAggregate.update, BasicAggr.update,
      BasicAggr.init, XmlAggregate.getAggregateMin, dblMin, dblMax]
    norm_num

/-! ## Claim C7: first[n] stops the parse -/

theorem runFirstN_spec {α : Type} (spec : FirstNSpec) (hs : spec.specified = true) :
    ∀ (l : List α) (st : FirstNState),
      (runFirstN spec l st).2 = l.take (spec.n - st.matched) ∧
      (runFirstN spec l st).1.matched = st.matched + l.length ∧
      (runFirstN spec l st).1.stopped
        = (st.stopped || decide (spec.n < st.matched + l.length ∧ 0 < l.length)) := by
  intro l
  induction l with
  | nil => intro st; simp [runFirstN]
  | cons a as ih =>
    intro st
    by_cases h : spec.n < st.matched + 1
    · have hd : (spec.specified && decide (st.matched + 1 > spec.n)) = true := by
        simp [hs, h]
      obtain ⟨ih1, ih2, ih3⟩ := ih { matched := st.matched + 1, stopped := true }
      dsimp only at ih1 ih2 ih3
      simp only [runFirstN, checkFirstN, hd, if_true, reduceIte, List.length_cons]
      refine ⟨?_, ?_, ?_⟩
      · rw [ih1]
        have hz : spec.n - st.matched = 0 := by omega
        have hz2 : spec.n - (st.matched + 1) = 0 := by omega
        simp [hz, hz2]
      · rw [ih2]; omega
      · rw [ih3]
        have hlt : spec.n < st.matched + (as.length + 1) ∧ 0 < as.length + 1 := by omega
        simp [hlt]
    · have hd : (spec.specified && decide (st.matched + 1 > spec.n)) = false := by
        simp only [hs, Bool.true_and, decide_eq_false_iff_not, gt_iff_lt]
        omega
      obtain ⟨ih1, ih2, ih3⟩ := ih { st with matched := st.matched + 1 }
      dsimp only at ih1 ih2 ih3
      simp only [runFirstN, checkFirstN, hd, Bool.false_eq_true, if_false, reduceIte,
        List.length_cons]
      refine ⟨?_, ?_, ?_⟩
      · rw [ih1]
        have hp : spec.n - st.matched = (spec.n - (st.matched + 1)) + 1 := by omega
        rw [hp, List.take_succ_cons]
      · rw [ih2]; omega
      · rw [ih3]
        have he : ((spec.n < st.matched + 1 + as.length ∧ 0 < as.length)) ↔
            (spec.n < st.matched + (as.length + 1) ∧ 0 < as.length + 1) := by omega
        simp only [he]

/-- C7: with `first[n]` specified, the commit attempts of a pass are
evaluated, stored and emitted only up to the n-th: the fold of
`JoinAndCommitRow` attempts through `CheckFirstNRowsCondition` lets
exactly the first n attempts through, and `ParseStopped` is raised
exactly when the matched-row count exceeds n (i.e. as soon as attempt
n+1 arrives).  Attempts arriving after the stop still hit the check
first (the counter keeps rising) and are never evaluated. -/
theorem C7_first_n_limit : ∀ (α : Type) (n : Nat) (attempts : List α),
    (runFirstN ⟨true, n⟩ attempts ⟨0, false⟩).2 = attempts.take n ∧
    (runFirstN ⟨true, n⟩ attempts ⟨0, false⟩).1.stopped = decide (n < attempts.length) ∧
    (runFirstN ⟨true, n⟩ attempts ⟨0, false⟩).1.matched = attempts.length := by
  intro α n l
  obtain ⟨h1, h2, h3⟩ := runFirstN_spec ⟨true, n⟩ rfl l ⟨0, false⟩
  refine ⟨by simpa using h1, ?_, by simpa using h2⟩
  rw [h3]
  simp only [Bool.false_or]
  exact decide_eq_decide.mpr (by omega)

/-! ## Claim C9: CSV quoting -/

theorem cstrT_of_no_nul (l : CStr) (h : ∀ c ∈ l, ¬(c = Char.ofNat 0)) : cstrT l = l := by
  induction l with
  | nil => rfl
  | cons c cs ih =>
    have hc : ¬(c = Char.ofNat 0) := h c (List.mem_cons_self c cs)
    have ihh := ih (fun d hd => h d (List.mem_cons_of_mem _ hd))
    unfold cstrT at ihh ⊢
    rw [List.takeWhile_cons]
    have hd : (decide (c ≠ Char.ofNat 0)) = true := by simp [hc]
    rw [hd]
    simp only [if_true, reduceIte]
    rw [ihh]

theorem csv_doubled_eq (s : CStr) :
    s.foldr (fun c acc => (if c = '"' then ['"', c] else [c]) ++ acc) ['"'] =
      (s.map (fun c => if c = '"' then ['"', '"'] else [c])).flatten ++ ['"'] := by
  induction s with
  | nil => rfl
  | cons c cs ih =>
    simp only [List.foldr, List.map, List.flatten, ih, List.append_assoc]
    split_ifs with h
    · subst h; rfl
    · rfl

/-- C9 counterexample.  The claim states that a string containing a
comma is returned wrapped in double quotes with embedded quotes doubled.
The quoting branch of `CsvNormalize` rebuilds the result through
`ss.str().c_str()` (xmlutils.h:534), which truncates at the first NUL
byte: for the input `",\0a"` the result is `",` — not the input wrapped
in quotes. -/
theorem C9_nul_truncation_cex :
    (([',', Char.ofNat 0, 'a'] : CStr).any (fun c => c = ',' ∨ c = '"' ∨ c = '\n') = true) ∧
    csvNormalize [',', Char.ofNat 0, 'a'] = ['"', ','] ∧
    csvNormalize [',', Char.ofNat 0, 'a'] ≠ ['"'] ++ [',', Char.ofNat 0, 'a'] ++ ['"'] := by
  decide

/-- C9 (amended): for every string without an embedded NUL byte,
`CsvNormalize(s)` wraps s in double quotes, doubling every embedded
double quote, iff s contains a comma, a double quote or a newline, and
returns s unchanged otherwise.  (With an embedded NUL the quoted result
is truncated at the NUL.) -/
theorem C9_csv_quote_iff : ∀ s : CStr, Char.ofNat 0 ∉ s →
    csvNormalize s =
      if s.any (fun c => c = ',' ∨ c = '"' ∨ c = '\n')
      then ['"'] ++ (s.map (fun c => if c = '"' then ['"', '"'] else [c])).flatten ++ ['"']
      else s := by
  intro s hn
  cases hq : s.any (fun c => c = ',' ∨ c = '"' ∨ c = '\n') with
  | false =>
    simp only [csvNormalize, hq, Bool.false_eq_true, not_false_eq_true, if_true, if_false,
      reduceIte, ite_true, ite_false]
  | true =>
    simp only [csvNormalize, hq, not_true_eq_false, if_false, if_true, reduceIte,
      Bool.true_eq_false]
    rw [csv_doubled_eq]
    have hall : ∀ c ∈ ('"' :: ((s.map (fun c => if c = '"' then ['"', '"'] else [c])).flatten
        ++ ['"'])), ¬(c = Char.ofNat 0) := by
      intro c hc
      simp only [List.mem_cons, List.mem_append, List.mem_flatten, List.mem_map] at hc
      rcases hc with hc | ⟨l, ⟨d, hd, hdl⟩, hcl⟩ | hc
      · subst hc; decide
      · subst hdl
        by_cases hdq : d = '"'
        · simp only [hdq, if_true, reduceIte, List.mem_cons] at hcl
          rcases hcl with h | h | h <;> first | (subst h; decide) | (exact absurd h (by simp))
        · simp only [hdq, if_false, reduceIte, List.mem_singleton] at hcl
          subst hcl
          intro hcc
          exact hn (by simpa [hcc] using hd)
      · have hc2 : c = '"' := by simpa using hc
        subst hc2; decide
    rw [cstrT_of_no_nul _ hall]
    rfl

/-- C9 witness: the string `a,"` is quoted with its quote doubled. -/
theorem C9_csv_quote_iff_witness :
    (Char.ofNat 0 ∉ (['a', ',', '"'] : CStr)) ∧
    csvNormalize ['a', ',', '"'] = ['"', 'a', ',', '"', '"', '"'] := by
  refine ⟨by decide, ?_⟩
  rw [C9_csv_quote_iff ['a', ',', '"'] (by decide)]
  decide

/-! ## Claim C4: pass derivation -/

theorem postStep_foldl (ops : List OpInfo) (f : SpecFlags) :
    ops.foldl postStep f =
      ⟨f.gatherDataPassRequired || ops.any (fun op => op.gatherData),
       f.aggregatesExist || ops.any (fun op => op.aggregate),
       f.distinctUsed || ops.any (fun op => op.kind == .kDistinct),
       f.hasSortColumn || ops.any (fun op => op.kind == .kSort)⟩ := by
  induction ops generalizing f with
  | nil => cases f; simp
  | cons op ops ih =>
    simp only [List.foldl, List.any_cons, ih, postStep]
    cases f
    simp [Bool.or_assoc]

theorem postFlags_spec (ops : List OpInfo) :
    postFlags ops =
      ⟨ops.any (fun op => op.gatherData), ops.any (fun op => op.aggregate),
       ops.any (fun op => op.kind == .kDistinct), ops.any (fun op => op.kind == .kSort)⟩ := by
  simpa [postFlags] using postStep_foldl ops ⟨false, false, false, false⟩

/-- The query configuration that refutes the claimed characterization: a
sort directive is present (e.g. the argument list is just `sort[x]`) but
there is no output or aggregate column, so `GetNumValueColumns()` is 0.
The driver accepts such a query (it switches to echo mode,
xmldriver.h:176-178) and `NeedsSorting()` (xmlquery.h:523-526) is false,
so the query streams. -/
def c4cex : QueryCfg :=
  { flags := { gatherDataPassRequired := false, aggregatesExist := false,
               distinctUsed := false, hasSortColumn := true },
    numValueColumns := 0,
    pivot := { enabled := false, jagged := false } }

/-- C4 counterexample.  The claim says the StoredValuesPass is present
iff the query uses distinct, sort, or an aggregate.  For a query whose
only directive is a sort but which has no value columns, sort is used
yet `GetPassTypes()` returns just `[MainPass]`: `Streaming()` consults
`NeedsSorting()`, which also requires `GetNumValueColumns() > 0`. -/
theorem C4_stored_pass_cex :
    c4cex.flags.hasSortColumn = true ∧
    getPassTypes c4cex = [XmlPassType.mainPass] ∧
    ¬(XmlPassType.storedValuesPass ∈ getPassTypes c4cex) := by decide

/-- C4 (amended): `GetPassTypes()` returns exactly the ordered list
`[GatherDataPass?, MainPass, StoredValuesPass?]`; the GatherDataPass is
present iff some parsed operator carries the GatherData flag or the
pivoter requires a prepass (jagged pivot); MainPass is always present;
the StoredValuesPass is present iff the query is non-streaming, i.e.
uses distinct, an aggregate, or a sort together with at least one value
column. -/
theorem C4_pass_list : ∀ (ops : List OpInfo) (nvc : Nat) (piv : PivoterCfg),
    getPassTypes ⟨postFlags ops, nvc, piv⟩ =
      (if ops.any (fun op => op.gatherData) || (piv.enabled && piv.jagged)
       then [XmlPassType.gatherDataPass] else [])
      ++ [XmlPassType.mainPass] ++
      (if ops.any (fun op => op.kind == .kDistinct) || ops.any (fun op => op.aggregate)
          || (ops.any (fun op => op.kind == .kSort) && decide (0 < nvc))
       then [XmlPassType.storedValuesPass] else []) ∧
    XmlPassType.mainPass ∈ getPassTypes ⟨postFlags ops, nvc, piv⟩ ∧
    ((XmlPassType.gatherDataPass ∈ getPassTypes ⟨postFlags ops, nvc, piv⟩) ↔
      ((∃ op ∈ ops, op.gatherData = true) ∨ requirePrepass piv = true)) ∧
    ((XmlPassType.storedValuesPass ∈ getPassTypes ⟨postFlags ops, nvc, piv⟩) ↔
      ((∃ op ∈ ops, op.kind = .kDistinct) ∨ (∃ op ∈ ops, op.aggregate = true) ∨
        ((∃ op ∈ ops, op.kind = .kSort) ∧ 0 < nvc))) := by
  intro ops nvc piv
  obtain ⟨pe, pj⟩ := piv
  rw [postFlags_spec ops]
  simp only [getPassTypes, streamingQ, distinctQ, aggregated, needsSorting, requirePrepass]
  cases hg : ops.any (fun op => op.gatherData) <;>
    cases hd : ops.any (fun op => op.kind == .kDistinct) <;>
      cases hag : ops.any (fun op => op.aggregate) <;>
        cases hso : ops.any (fun op => op.kind == .kSort) <;>
          cases pe <;> cases pj <;> by_cases hnv : 0 < nvc <;>
            simp_all [List.any_eq_true, beq_iff_eq, hnv]

/-! ## Claim C3: sorted emission -/

theorem rowCompLt_iff : ∀ (rev : List Bool) (l r : List XmlValue),
    rowCompLt rev l r = true ↔ rowCmpInt rev l r < 0 := by
  intro rev
  induction rev with
  | nil => intro l r; cases l <;> cases r <;> simp [rowCompLt, rowCmpInt]
  | cons b bs ih =>
    intro l r
    cases l with
    | nil => cases r <;> simp [rowCompLt, rowCmpInt]
    | cons x xs =>
      cases r with
      | nil => simp [rowCompLt, rowCmpInt]
      | cons y ys =>
        simp only [rowCompLt, rowCmpInt]
        cases b <;> rcases lt_trichotomy (xmlCompare x y) 0 with h | h | h
        all_goals
          first
            | (simp [h, h.ne, lt_asymm h] <;> omega)
            | (simp [h, ih] <;> omega)
            | (simp [h, lt_asymm h, h.ne'] <;> omega)

theorem rowCmpInt_antisym : ∀ (rev : List Bool) (l r : List XmlValue),
    (∀ v ∈ l, v.wf) → (∀ v ∈ r, v.wf) →
    rowCmpInt rev l r = -(rowCmpInt rev r l) := by
  intro rev
  induction rev with
  | nil => intro l r _ _; cases l <;> cases r <;> simp [rowCmpInt]
  | cons b bs ih =>
    intro l r hl hr
    cases l with
    | nil => cases r <;> simp [rowCmpInt]
    | cons x xs =>
      cases r with
      | nil => simp [rowCmpInt]
      | cons y ys =>
        have hx : x.wf := hl x (List.mem_cons_self x xs)
        have hy : y.wf := hr y (List.mem_cons_self y ys)
        have hxy := xmlCompare_antisym x y hx hy
        have ihr := ih xs ys (fun v hv => hl v (List.mem_cons_of_mem _ hv))
          (fun v hv => hr v (List.mem_cons_of_mem _ hv))
        simp only [rowCmpInt, hxy]
        cases b <;> simp only [if_true, if_false, reduceIte, neg_neg, neg_eq_zero]
        · by_cases h0 : xmlCompare y x = 0
          · simp [h0, ihr]
          · simp [h0, neg_eq_zero]
        · by_cases h0 : xmlCompare y x = 0
          · simp [h0, ihr]
          · simp [h0, neg_eq_zero]

/-- C3 counterexample to stability.  `SortRows` uses `std::sort`
(xmlquery.h:490), which guarantees only a permutation ordered by the
comparator — not stability.  For the two-row table below, whose rows
have equal composite sort keys, the swapped output satisfies everything
`std::sort` guarantees (it is a permutation pairwise ordered by the
comparator), yet it emits the row inserted second (seq 1) before the row
inserted first (seq 0), refuting the claim that rows with equal
composite sort keys are emitted in their original insertion order.
(libstdc++ introsort really does reorder equal elements once the range
exceeds its insertion-sort threshold.) -/
theorem C3_stability_cex :
    SortedOut [false]
      [⟨[XmlValue.vInt 1], 0⟩, ⟨[XmlValue.vInt 1], 1⟩]
      [⟨[XmlValue.vInt 1], 1⟩, ⟨[XmlValue.vInt 1], 0⟩] ∧
    (⟨[XmlValue.vInt 1], 1⟩ : SRow).key = (⟨[XmlValue.vInt 1], 0⟩ : SRow).key ∧
    (([⟨[XmlValue.vInt 1], 1⟩, ⟨[XmlValue.vInt 1], 0⟩] : List SRow).getD 0 ⟨[], 0⟩).seq = 1 ∧
    (([⟨[XmlValue.vInt 1], 1⟩, ⟨[XmlValue.vInt 1], 0⟩] : List SRow).getD 1 ⟨[], 0⟩).seq = 0 := by
  refine ⟨⟨?_, ?_⟩, rfl, rfl, rfl⟩
  · exact List.Perm.swap _ _ _
  · decide

/-- C3 (amended): after `SortRows`, for every output the unstable-sort
contract admits and every pair of emitted rows at positions i < j (after
the `top[n]` cap and the aggregate filters of `OutputStoredRows`), the
composite per-key-reversed comparison of their sort keys is ≤ 0,
provided the sort-key values are well-formed (no error datetimes or NaN
reals, on which `XmlValue::Compare` is not antisymmetric and `std::sort`
would be handed an invalid comparator); rows with equal composite keys
may appear in any order. -/
theorem C3_sorted_emission :
    ∀ (rev : List Bool) (inp out : List SRow) (topSpec : Bool) (topN : Nat) (pass : SRow → Bool),
      SortedOut rev inp out →
      (∀ r ∈ out, ∀ v ∈ r.key, v.wf) →
      ∀ (i j : Nat) (hi : i < (emittedRows topSpec topN pass out).length)
        (hj : j < (emittedRows topSpec topN pass out).length), i < j →
        rowCmpInt rev ((emittedRows topSpec topN pass out).get ⟨i, hi⟩).key
          ((emittedRows topSpec topN pass out).get ⟨j, hj⟩).key ≤ 0 := by
  intro rev inp out ts tn pass hsort hwf i j hi hj hij
  obtain ⟨hperm, hpw⟩ := hsort
  have hsub : (emittedRows ts tn pass out).Sublist out := by
    unfold emittedRows
    cases ts
    · exact List.filter_sublist out
    · exact (List.filter_sublist _).trans (List.take_sublist tn out)
  have hpw2 : (emittedRows ts tn pass out).Pairwise
      (fun a b => rowCompLt rev b.key a.key = false) := hpw.sublist hsub
  have hrel := List.pairwise_iff_getElem.mp hpw2 i j hi hj hij
  have hmemi : (emittedRows ts tn pass out).get ⟨i, hi⟩ ∈ out :=
    hsub.subset (List.get_mem _ _ _)
  have hmemj : (emittedRows ts tn pass out).get ⟨j, hj⟩ ∈ out :=
    hsub.subset (List.get_mem _ _ _)
  have hwi := hwf _ hmemi
  have hwj := hwf _ hmemj
  have h1 : ¬(rowCmpInt rev ((emittedRows ts tn pass out).get ⟨j, hj⟩).key
      ((emittedRows ts tn pass out).get ⟨i, hi⟩).key < 0) := by
    rw [← rowCompLt_iff]
    simp only [List.get_eq_getElem] at hrel ⊢
    simp [hrel]
  have h2 := rowCmpInt_antisym rev ((emittedRows ts tn pass out).get ⟨i, hi⟩).key
    ((emittedRows ts tn pass out).get ⟨j, hj⟩).key hwi hwj
  omega

/-- C3 witness: a two-row sorted table emitted without cap or filters. -/
theorem C3_sorted_emission_witness :
    SortedOut [false] [⟨[XmlValue.vInt 1], 0⟩, ⟨[XmlValue.vInt 2], 1⟩]
      [⟨[XmlValue.vInt 1], 0⟩, ⟨[XmlValue.vInt 2], 1⟩] ∧
    rowCmpInt [false]
      ((emittedRows false 0 (fun _ => true)
        [⟨[XmlValue.vInt 1], 0⟩, ⟨[XmlValue.vInt 2], 1⟩]).get ⟨0, by decide⟩).key
      ((emittedRows false 0 (fun _ => true)
        [⟨[XmlValue.vInt 1], 0⟩, ⟨[XmlValue.vInt 2], 1⟩]).get ⟨1, by decide⟩).key ≤ 0 := by
  have hs : SortedOut [false] [⟨[XmlValue.vInt 1], 0⟩, ⟨[XmlValue.vInt 2], 1⟩]
      [⟨[XmlValue.vInt 1], 0⟩, ⟨[XmlValue.vInt 2], 1⟩] := by
    refine ⟨List.Perm.refl _, ?_⟩
    decide
  refine ⟨hs, ?_⟩
  exact C3_sorted_emission [false] _ _ false 0 (fun _ => true) hs (by decide) 0 1 _ _
    (by decide)

/-! ## Claim C8: match-order rollback -/

/-- Query paths of the rollback scenario: `t`, `b.t`, and `v`.  The
matcher receives them in the iteration order of the path-ref
`unordered_map` (xmlparser.h:420-434), which is implementation-defined,
so every statement below ranges over all arrangements of this set. -/
def c8basePaths : List MPath :=
  [mkPath [['t']] false false, mkPath [['b'], ['t']] false false,
   mkPath [['v']] false false]

/-- Input events up to the point of interest:
`<b><t>x</t></b> <v>y</v>` (row 1 commits at `</v>`),
`<b><t>z</t></b> <v>w</v> <b><t>m</t></b>` (row 2 commits at the second
`</t>`), `<v>q</v> <b>`.  The first `<t>` of row 2 re-matches both
`t`-paths, and the rollback it triggers hard-clears the later-ordered
one, so from then on the iteration-earlier `t`-path always holds the
smaller order — whichever arrangement the map produced. -/
def c8evs : List XEvent :=
  [XEvent.startT ['b'], XEvent.startT ['t'], XEvent.textT ['x'],
   XEvent.endT ['t'], XEvent.endT ['b'],
   XEvent.startT ['v'], XEvent.textT ['y'], XEvent.endT ['v'],
   XEvent.startT ['b'], XEvent.startT ['t'], XEvent.textT ['z'],
   XEvent.endT ['t'], XEvent.endT ['b'],
   XEvent.startT ['v'], XEvent.textT ['w'], XEvent.endT ['v'],
   XEvent.startT ['b'], XEvent.startT ['t'], XEvent.textT ['m'],
   XEvent.endT ['t'], XEvent.endT ['b'],
   XEvent.startT ['v'], XEvent.textT ['q'], XEvent.endT ['v'],
   XEvent.startT ['b']]

/-- The event on which the claimed rollback fails: the final `<t>`. -/
def c8trap : XEvent := XEvent.startT ['t']

/-- Detector for a rollback violation at one start-tag event, given the
states before and after it: some path completes a start match keeping an
order it already had, smaller than the pre-event counter (a re-match),
while another path whose pre-event order exceeds that order survives the
event with its order and `Matched` flag intact — i.e. is not cleared and
reset as the claim demands. -/
def c8viol (pre post : MState) : Bool :=
  (pre.paths.zip post.paths).any (fun pq =>
    decide (pq.1.pstate ≠ PathMS.searchingForEndTag) &&
    decide (pq.2.pstate = PathMS.searchingForEndTag) &&
    decide (pq.1.matchOrder ≠ -1) &&
    decide (pq.2.matchOrder = pq.1.matchOrder) &&
    decide (pq.1.matchOrder < pre.rs.matchOrder) &&
    (pre.paths.zip post.paths).any (fun rq =>
      decide (pq.1.matchOrder < rq.1.matchOrder) &&
      decide (rq.2.matchOrder = rq.1.matchOrder) &&
      rq.2.matchedFlag))

/-- All insertions of a path into a path list. -/
def c8inserts (x : MPath) : List MPath → List (List MPath)
  | [] => [[x]]
  | y :: ys => (x :: y :: ys) :: (c8inserts x ys).map (fun l => y :: l)

/-- All arrangements of a path list (3! = 6 for the scenario's set). -/
def c8perms : List MPath → List (List MPath)
  | [] => [[]]
  | x :: xs => ((c8perms xs).map (c8inserts x)).flatten

/-- C8 counterexample, independent of the implementation-defined path
iteration order: for every one of the 6 arrangements of the path set,
running the event stream and then the final `<t>` yields a rollback
violation.  At that event the iteration-earlier `t`-path re-matches with
order 0 below the counter 2; the claim then demands clearing every path
of larger order, but the other `t`-path also completes in the same
event, takes order 1 and pushes the counter back to 2, so the reset
threshold (the post-loop counter, xmlmatcher.h:76-79) spares the `v`
path: it keeps order 1, its `Matched` flag and its bound value, and two
paths end up sharing order 1. -/
theorem C8_match_order_cex :
    (c8perms c8basePaths).length = 6 ∧
    ((c8perms c8basePaths).all (fun ps =>
      c8viol (procEvents (initMatcher ps) c8evs)
        (procEvent (procEvents (initMatcher ps) c8evs) c8trap))) = true := by decide

/-- C8 (amended): the match-order bookkeeping actually implemented.  On
a complete start-tag match, `Path_MatchStartTag` assigns a fresh path
(order -1) the current counter and increments the counter; a re-matching
path with an order below the counter keeps its order and pulls the
counter down to that order plus one; otherwise orders and counter are
untouched, and a non-completing call never changes them.  `Path_Reset`
hard-clears a path (order -1, `Matched` false, empty value, searching
for start tag) exactly when its order is at least the given start order,
and otherwise preserves order, flag, value and state.  `MatchStartTag`
resets the paths only when some path completed in the event, and against
the counter and parse depth left after the whole path loop — not against
the smallest re-matched order, which is how a second completion in the
same event shields lower-ordered stale paths from the rollback the
claim describes — realized by the counterexample above under every
path iteration order. -/
theorem C8_match_order :
    (∀ (tag : CStr) (p : MPath) (rs : RowSt) (p1 : MPath) (rs1 : RowSt),
       pathMatchStart tag p rs = (p1, rs1, true) →
       (p.matchOrder = -1 →
          p1.matchOrder = rs.matchOrder ∧ rs1.matchOrder = rs.matchOrder + 1) ∧
       (p.matchOrder ≠ -1 → p.matchOrder < rs.matchOrder →
          p1.matchOrder = p.matchOrder ∧ rs1.matchOrder = p.matchOrder + 1) ∧
       (p.matchOrder ≠ -1 → ¬p.matchOrder < rs.matchOrder →
          p1.matchOrder = p.matchOrder ∧ rs1.matchOrder = rs.matchOrder)) ∧
    (∀ (tag : CStr) (p : MPath) (rs : RowSt) (p1 : MPath) (rs1 : RowSt),
       pathMatchStart tag p rs = (p1, rs1, false) →
       p1.matchOrder = p.matchOrder ∧ rs1.matchOrder = rs.matchOrder) ∧
    (∀ (pd mos : Int) (p : MPath),
       (mos ≤ p.matchOrder →
          (pathReset pd mos p).matchOrder = -1 ∧
          (pathReset pd mos p).matchedFlag = false ∧
          (pathReset pd mos p).str = [] ∧
          (pathReset pd mos p).pstate = PathMS.searchingForStartTag) ∧
       (p.matchOrder < mos →
          (pathReset pd mos p).matchOrder = p.matchOrder ∧
          (pathReset pd mos p).matchedFlag = p.matchedFlag ∧
          (pathReset pd mos p).str = p.str ∧
          (pathReset pd mos p).pstate = p.pstate)) ∧
    (∀ (tag : CStr) (s : MState), s.paths ≠ [] →
       matcherMatchStart tag s =
         (let fr := foldStart tag s.paths
             { s.rs with currParseDepth := s.rs.currParseDepth + 1 };
          if fr.2.2 then
            ({ paths := fr.1.map (pathReset fr.2.1.currParseDepth fr.2.1.matchOrder),
               rs := fr.2.1 }, true)
          else ({ paths := fr.1, rs := fr.2.1 }, false))) := by
  refine ⟨?_, ?_, ?_, ?_⟩
  · intro tag p rs p1 rs1 hp
    rcases htl : tagListMatchStart tag rs.currParseDepth p.tags with ⟨tags1, r, cm⟩
    simp only [pathMatchStart, htl] at hp
    split_ifs at hp with h1 h2 h3 h4 h5 h6
    all_goals try simp at hp
    · obtain ⟨hA, hB⟩ := hp
      subst hA; subst hB
      exact ⟨fun _ => ⟨rfl, rfl⟩, fun hne _ => absurd h5 hne,
             fun hne _ => absurd h5 hne⟩
    · obtain ⟨hA, hB⟩ := hp
      subst hA; subst hB
      exact ⟨fun he => absurd he h5, fun _ _ => ⟨rfl, rfl⟩,
             fun _ hnlt => absurd h6 hnlt⟩
    · obtain ⟨hA, hB⟩ := hp
      subst hA; subst hB
      exact ⟨fun he => absurd he h5, fun _ hlt => absurd hlt h6,
             fun _ _ => ⟨rfl, rfl⟩⟩
  · intro tag p rs p1 rs1 hp
    rcases htl : tagListMatchStart tag rs.currParseDepth p.tags with ⟨tags1, r, cm⟩
    simp only [pathMatchStart, htl] at hp
    split_ifs at hp
    all_goals simp only [Prod.mk.injEq] at hp
    all_goals first
      | exact absurd hp.2.2 (by decide)
      | (obtain ⟨hA, hB, -⟩ := hp
         subst hA; subst hB
         exact ⟨rfl, rfl⟩)
  · intro pd mos p
    constructor
    · intro hge
      simp only [pathReset, pathClearValues, ge_iff_le, if_pos hge]
      exact ⟨rfl, rfl, rfl, rfl⟩
    · intro hlt
      simp only [pathReset, pathClearValues, ge_iff_le, if_neg (not_le.mpr hlt)]
      refine ⟨?_, ?_, ?_, ?_⟩ <;> trivial
  · intro tag s hne
    obtain ⟨paths, rs⟩ := s
    cases paths with
    | nil => exact absurd rfl hne
    | cons p ps =>
      simp only [matcherMatchStart]

/-- A fresh path `x` about to complete at parse depth 2: the advanced
leading wildcard then the literal tag. -/
def c8wPath : MPath :=
  { noData := false, sync := false, hasEndExprs := false,
    tags := [{ name := ['*'], wildcard := true, rpd := 1 },
             { name := ['x'], wildcard := false, rpd := 0 }],
    pstate := PathMS.searchingForStartTag,
    matchOrder := -1, matchDepth := -1, mismatchDepth := 0,
    matchedFlag := false, str := [] }

/-- Row state with counter 0 at parse depth 2. -/
def c8wRs : RowSt := { matchOrder := 0, currParseDepth := 2, searchCnt := 0 }

/-- Output of the completing call of the witness below. -/
def c8wOut : MPath × RowSt × Bool := pathMatchStart ['x'] c8wPath c8wRs

/-- C8 witness: the fresh path takes order 0 and the counter becomes 1. -/
theorem C8_match_order_witness :
    c8wOut.1.matchOrder = c8wRs.matchOrder ∧
    c8wOut.2.1.matchOrder = c8wRs.matchOrder + 1 :=
  (C8_match_order.1 ['x'] c8wPath c8wRs c8wOut.1 c8wOut.2.1 (by decide)).1 (by decide)

end StreamingXml
